import Mathlib

/-!
Verification development for the Atom scheme interpreter (src/atom.cpp).

The file shallowly embeds the parts of the interpreter that the claims
C1-C10 are about:

* the tagged cell value model (`Cell`), with `Option Cell` playing the
  role of the C `Cell*` (the absent/null reference is `none`);
* the printer `print_rec` / `print`;
* the recursive comparator `eq_helper` / `pair_equal` / `vector_equal`
  behind `eq?` / `eqv?` / `equal?`;
* the lexer (`read_token` and friends) over a `List Char` input;
* the recursive-descent parser (`parse_datum` and friends), fuel-indexed
  because the C parser does not terminate on some token streams;
* the environment operation `environment_set`;
* the built-ins `atom_null_q`, `atom_and`, `atom_list`, `atom_length`,
  `atom_append` (with `duplicate` / `append_destructive` over an explicit
  pair heap), `atom_string_ref`, `atom_close_input_port` /
  `atom_close_output_port`, and the boolean-singleton allocation model
  around `make_boolean` together with the sweep phase of the collector.

C control flow that aborts (failed `assert`, dereference of a null
pointer, `longjmp` via `signal_error`) is made explicit in result types;
the doc comment of each definition records the correspondence.
-/

namespace Atom

/-- Cell is the tagged value sum of the interpreter (`struct Cell` in the
source).  A C `Cell*` is embedded as `Option Cell`: `none` is the null /
absent reference.  `TYPE_NUMBER` holds a C `double`; every number the
reader can produce is a nonnegative integer and all numbers appearing in
the theorems below are integers of magnitude far below `2^53`, where
`double` arithmetic is exact, so the embedding uses `Int`.  C strings
(`char*` buffers for strings, symbol names and identifiers) are embedded
as `List Char`.  Procedure and port cells play no role in the claims
about the reader/printer and are omitted from this tree-shaped value
embedding; the heap-identity aspects of cells are modelled separately
(see `Heap` and `CellId` below). -/
inductive Cell where
  | boolean (b : Bool)
  | character (c : Char)
  | number (n : Int)
  | string (s : List Char)
  | symbol (s : List Char)
  | pair (car cdr : Option Cell)
  | vector (elems : List (Option Cell))

/-- the `CellType` tag of a cell (the `type` field). -/
def Cell.tag : Cell → Nat
  | .boolean _ => 0
  | .character _ => 1
  | .number _ => 2
  | .string _ => 3
  | .pair _ _ => 4
  | .vector _ => 5
  | .symbol _ => 6

/-- decimal digits of a natural number, most significant first; this is
the digit sequence that `printf("%lg", d)` emits for an integral double
`d` with `0 <= d < 10^6` (six significant digits, so no exponent and no
rounding in that range). -/
def natDigits (n : Nat) : List Char :=
  if h : n < 10 then [Char.ofNat (48 + n)]
  else natDigits (n / 10) ++ [Char.ofNat (48 + n % 10)]
decreasing_by exact Nat.div_lt_self (by omega) (by norm_num)

/-- printf "%lg" for the numbers used in this development: integral
doubles of magnitude below `10^6` print as an optional minus sign and the
plain decimal digits. -/
def print_number (n : Int) : List Char :=
  (if n < 0 then ['-'] else []) ++ natDigits n.natAbs

mutual

/-- print_rec from the source, producing the list of characters written
to the output `FILE*`.  `human` is the `display`/`write` flag, `is_car`
the flag that decides whether a pair gets surrounding parentheses.  A
null `Cell*` prints nothing (`if (!cell) return;`). -/
def print_rec : Option Cell → Bool → Bool → List Char
  | none, _, _ => []
  | some (.boolean b), _, _ => if b then ['#', 't'] else ['#', 'f']
  | some (.number n), _, _ => print_number n
  | some (.character c), human, _ =>
    if human then [c]
    else if c = ' ' then ['#', '\\', 's', 'p', 'a', 'c', 'e']
    else if c = '\n' then ['#', '\\', 'n', 'e', 'w', 'l', 'i', 'n', 'e']
    else ['#', '\\', c]
  | some (.string s), human, _ =>
    if human then s else '\"' :: s ++ ['\"']
  | some (.symbol s), _, _ => s
  | some (.pair a d), human, is_car =>
    (if is_car then ['('] else []) ++
    print_rec a human true ++
    (match d with
     | none => []
     | some c =>
       ' ' :: (if ¬ c matches .pair _ _ then ['.', ' '] else []) ++
       print_rec (some c) human false) ++
    (if is_car then [')'] else [])
  | some (.vector es), human, _ =>
    '#' :: '(' :: print_vec_elems es human true ++ [')']

/-- the element loop of the `TYPE_VECTOR` case of `print_rec`: elements
are separated by single spaces and printed with `is_car = 0`. -/
def print_vec_elems : List (Option Cell) → Bool → Bool → List Char
  | [], _, _ => []
  | e :: es, human, first =>
    (if first then [] else [' ']) ++ print_rec e human false ++
    print_vec_elems es human false

end

/-- print from the source: `print_rec` with `is_car = 1` followed by a
newline. -/
def print (cell : Option Cell) (human : Bool) : List Char :=
  print_rec cell human true ++ ['\n']

/-- write, the claim-level "text produced by writing d": `atom_write`
calls `print(port, obj, false)`. -/
def write (d : Cell) : List Char := print (some d) false

mutual

/-- eq_helper from the source.  The result `none` models a crashed
comparison: the C function dereferences `obj1` and `obj2` immediately
(`obj1->type`, `obj2->type`), so a null argument is a null-pointer
dereference, and the `default:` arm is `assert(0)`.  Pointer equality on
two distinct heap cells is false; this tree embedding compares cells
that come from distinct allocations (as in `parse(write(d))` vs `d`), so
the `obj1 == obj2` shortcuts of `pair_equal` / `vector_equal` /
the string case are taken exactly when both sides are the null pointer. -/
def eq_helper : Option Cell → Option Cell → Bool → Bool → Option Bool
  | none, _, _, _ => none
  | some _, none, _, _ => none
  | some c1, some c2, recurse_strings, recurse_compound =>
    match c1, c2 with
    | .boolean b1, .boolean b2 => some (b1 = b2)
    | .character a1, .character a2 => some (a1 = a2)
    | .symbol s1, .symbol s2 => some (s1 = s2)
    | .number n1, .number n2 => some (n1 = n2)
    | .pair a1 d1, .pair a2 d2 =>
      pair_equal (some (.pair a1 d1)) (some (.pair a2 d2)) recurse_compound
    | .vector v1, .vector v2 =>
      vector_equal v1 v2 recurse_compound
    | .string s1, .string s2 => some (recurse_strings && s1 = s2)
    | _, _ =>
      -- differing type tags compare unequal; same-tag cases not listed
      -- above (procedures, ports) hit the `assert(0)` arm
      if c1.tag = c2.tag then none else some false

/-- pair_equal from the source.  `obj1 == obj2` holds for two nulls;
`car`/`cdr` assert `TYPE_PAIR`, so recursing into two cells that are not
both pairs crashes (`none`). -/
def pair_equal : Option Cell → Option Cell → Bool → Option Bool
  | none, none, _ => some true
  | none, some _, _ => some false
  | some _, none, _ => some false
  | some c1, some c2, recursive =>
    if ¬ recursive then some false
    else
      match c1, c2 with
      | .pair a1 d1, .pair a2 d2 => do
        let b ← eq_helper a1 a2 true true
        if b then pair_equal d1 d2 true else some false
      | _, _ => none

/-- vector_equal from the source: same length, then element-wise
`eq_helper` with both recursion flags. -/
def vector_equal (v1 v2 : List (Option Cell)) (recursive : Bool) : Option Bool :=
  if ¬ recursive then some false
  else if v1.length ≠ v2.length then some false
  else vec_elems_equal v1 v2

/-- the element loop of `vector_equal`. -/
def vec_elems_equal : List (Option Cell) → List (Option Cell) → Option Bool
  | [], _ => some true
  | _ :: _, [] => some true
  | a :: as', b :: bs => do
    let r ← eq_helper a b true true
    if r then vec_elems_equal as' bs else some false

end

/-- atom_equal_q after argument extraction: `equal?` is `eq_helper` with
both recursion flags set. -/
def equal_q (obj1 obj2 : Option Cell) : Option Bool :=
  eq_helper obj1 obj2 true true

/-! ## Lexer

The C lexer walks a null-terminated byte buffer through `struct Input`:
`get()` returns the current character (0 at the end), `next()` asserts
that the current character is not 0, advances, and returns the new
current character.  The embedding represents the input as the list of
characters from the current position to the end, so `get` is the head
(0 when the list is empty) and `next` is `tail` (illegal on an empty
list: the assertion fires).  Lexer errors: `syntax_error` models a
`signal_error` longjmp, `assertFail` a failed `assert` inside `next()`
(in a release build this is a read past the end of the buffer). -/

/-- token stream elements (`struct Token`). -/
inductive Token where
  | identifier (s : List Char)
  | boolean (b : Bool)
  | number (n : Int)
  | character (c : Char)
  | string (s : List Char)
  | listStart
  | listEnd
  | vectorStart
  | quote
  | backtick
  | comma
  | commaAt
  | dot
deriving Repr, DecidableEq

inductive LexErr where
  | syntaxErr
  | assertFail
deriving Repr, DecidableEq

/-- Input::get — the current character, 0 at the end of the buffer. -/
def cget : List Char → Char
  | [] => Char.ofNat 0
  | c :: _ => c

/-- is_digit from the source. -/
def is_digit (c : Char) : Bool :=
  '0' ≤ c ∧ c ≤ '9'

/-- is_special_initial from the source. -/
def is_special_initial (c : Char) : Bool :=
  c = '!' ∨ c = '$' ∨ c = '%' ∨ c = '&' ∨ c = '*' ∨ c = '/' ∨ c = ':' ∨
  c = '<' ∨ c = '=' ∨ c = '>' ∨ c = '?' ∨ c = '^' ∨ c = '_' ∨ c = '~'

/-- is_letter: `isalpha` in the C locale, i.e. the ASCII letters. -/
def is_letter (c : Char) : Bool :=
  ('A' ≤ c ∧ c ≤ 'Z') ∨ ('a' ≤ c ∧ c ≤ 'z')

/-- is_initial from the source. -/
def is_initial (c : Char) : Bool :=
  is_letter c || is_special_initial c

/-- is_delimeter from the source (0, whitespace, quote, parens,
semicolon). -/
def is_delimeter (c : Char) : Bool :=
  c = Char.ofNat 0 ∨ c = ' ' ∨ c = '\n' ∨ c = '\t' ∨ c = '\"' ∨
  c = '(' ∨ c = ')' ∨ c = ';'

/-- is_special_subsequent from the source. -/
def is_special_subsequent (c : Char) : Bool :=
  c = '+' ∨ c = '-' ∨ c = '.' ∨ c = '@'

/-- is_subsequent from the source. -/
def is_subsequent (c : Char) : Bool :=
  is_initial c || is_digit c || is_special_subsequent c

/-- is_peculiar_identifier from the source. -/
def is_peculiar_identifier (c : Char) : Bool :=
  c = '+' || c = '-'

/-- isprint in the C locale: the visible ASCII range plus space. -/
def c_isprint (c : Char) : Bool :=
  32 ≤ c.toNat ∧ c.toNat ≤ 126

mutual

/-- skip_whitespace from the source.  The input position is left at the
first character that is neither whitespace nor inside a `;` comment. -/
def skip_whitespace : List Char → List Char
  | [] => []
  | c :: rest =>
    if c = '\n' ∨ c = ' ' ∨ c = '\t' then skip_whitespace rest
    else if c = ';' then skip_comment rest
    else c :: rest

/-- the `case ';'` loop of skip_whitespace: `for (char d = input.next();
d != '\n'; d = input.next()) { if (!d) return; }` followed by the outer
loop's `c = input.next()`. -/
def skip_comment : List Char → List Char
  | [] => []
  | c :: rest => if c = '\n' then skip_whitespace rest else skip_comment rest

end

/-- read_character from the source.  On entry the current character is
the one following `#\`.  In the `'s'`/`'n'` arms the code has already
consumed one extra character before reaching the shared `success:` path,
which calls `input.next()` once more; the embedding mirrors that
exactly (this is why a character literal such as `#\s` swallows the
character after it). -/
def read_character : List Char → Except LexErr (Token × List Char)
  | [] => .error .assertFail
  | 's' :: 'p' :: rest =>
    match rest with
    | 'a' :: 'c' :: 'e' :: rest3 =>
      if is_delimeter (cget rest3) then .ok (.character ' ', rest3)
      else .error .syntaxErr
    | _ => .error .syntaxErr
  | 's' :: rest =>
    match rest with
    | [] => .error .assertFail
    | _ :: rest2 =>
      if is_delimeter (cget rest2) then .ok (.character 's', rest2)
      else .error .syntaxErr
  | 'n' :: 'e' :: rest =>
    match rest with
    | 'w' :: 'l' :: 'i' :: 'n' :: 'e' :: rest3 =>
      if is_delimeter (cget rest3) then .ok (.character '\n', rest3)
      else .error .syntaxErr
    | _ => .error .syntaxErr
  | 'n' :: rest =>
    match rest with
    | [] => .error .assertFail
    | _ :: rest2 =>
      if is_delimeter (cget rest2) then .ok (.character 'n', rest2)
      else .error .syntaxErr
  | c :: rest =>
    if is_delimeter (cget rest) then .ok (.character c, rest)
    else .error .syntaxErr

/-- the accumulation loop of read_number; the list argument is the input
after the digit already accumulated, and the returned list starts at the
first non-digit (the loop returns when `input.next()` is not a digit,
leaving it current). -/
def read_number_loop (acc : Int) : List Char → Int × List Char
  | [] => (acc, [])
  | c :: rest =>
    if is_digit c then read_number_loop (acc * 10 + (c.toNat - 48 : Int)) rest
    else (acc, c :: rest)

/-- read_number from the source; entered only when the current character
is a digit.  The accumulator is a C double: exact for the integer ranges
used here. -/
def read_number : List Char → Token × List Char
  | [] => (.number 0, [])
  | c :: rest =>
    let (n, rest') := read_number_loop (c.toNat - 48 : Int) rest
    (.number n, rest')

/-- the scanning loop of read_string; `buf` is the token buffer.  On
entry the closing characters still to come; the opening quote has been
consumed.  Escapes: only `\"` and `\\`. -/
def read_string_loop (buf : List Char) : List Char → Except LexErr (Token × List Char)
  | [] => .error .syntaxErr
  | c :: rest =>
    if c = '\"' then .ok (.string buf, rest)
    else if c = '\\' then
      match rest with
      | [] => .error .syntaxErr
      | c2 :: rest2 =>
        if c2 = '\"' ∨ c2 = '\\' then read_string_loop (buf ++ [c2]) rest2
        else .error .syntaxErr
    else if c_isprint c then read_string_loop (buf ++ [c]) rest
    else .error .syntaxErr

/-- read_string from the source: on entry the current character is the
opening `"`. -/
def read_string : List Char → Except LexErr (Token × List Char)
  | [] => .error .assertFail
  | _ :: rest => read_string_loop [] rest

/-- the subsequent-character loop of read_identifier. -/
def read_ident_loop (buf : List Char) : List Char → Except LexErr (Token × List Char)
  | [] => .ok (.identifier buf, [])
  | c :: rest =>
    if is_delimeter c then .ok (.identifier buf, c :: rest)
    else if is_subsequent c then read_ident_loop (buf ++ [c]) rest
    else .error .syntaxErr

/-- read_identifier from the source. -/
def read_identifier : List Char → Except LexErr (Token × List Char)
  | [] => .error .syntaxErr
  | c :: rest =>
    if is_initial c then read_ident_loop [c] rest
    else if is_peculiar_identifier c then .ok (.identifier [c], rest)
    else .error .syntaxErr

/-- read_token from the source.  Returns at most one token; `none` means
the input was exhausted after whitespace (`case 0`), upon which the
driver loop stops. -/
def read_token (input : List Char) : Except LexErr (Option Token × List Char) :=
  match skip_whitespace input with
  | [] => .ok (none, [])
  | c :: rest =>
    if c = '(' then .ok (some .listStart, rest)
    else if c = ')' then .ok (some .listEnd, rest)
    else if c = '\'' then .ok (some .quote, rest)
    else if c = '`' then .ok (some .backtick, rest)
    else if c = '.' then .ok (some .dot, rest)
    else if c = ',' then
      match rest with
      | '@' :: rest2 => .ok (some .commaAt, rest2)
      | _ => .ok (some .comma, rest)
    else if c = '#' then
      match rest with
      | [] => .error .syntaxErr
      | 't' :: rest2 => .ok (some (.boolean true), rest2)
      | 'f' :: rest2 => .ok (some (.boolean false), rest2)
      | '\\' :: rest2 => (read_character rest2).map (fun p => (some p.1, p.2))
      | '(' :: rest2 => .ok (some .vectorStart, rest2)
      | _ => .error .syntaxErr
    else if c = '\"' then (read_string (c :: rest)).map (fun p => (some p.1, p.2))
    else if is_digit c then
      let p := read_number (c :: rest)
      .ok (some p.1, p.2)
    else (read_identifier (c :: rest)).map (fun p => (some p.1, p.2))

/-- the whitespace skipper never lengthens the input (this justifies the
termination of the driver loop `while (input.get()) read_token(input)`). -/
theorem skip_whitespace_length : ∀ l : List Char,
    (skip_whitespace l).length ≤ l.length ∧ (skip_comment l).length ≤ l.length := by
  intro l
  induction l with
  | nil => constructor <;> simp [skip_whitespace, skip_comment]
  | cons c rest ih =>
    constructor
    · rw [skip_whitespace]
      split
      · exact Nat.le_trans ih.1 (Nat.le_succ _)
      · split
        · exact Nat.le_trans ih.2 (Nat.le_succ _)
        · simp
    · rw [skip_comment]
      split
      · exact Nat.le_trans ih.1 (Nat.le_succ _)
      · exact Nat.le_trans ih.2 (Nat.le_succ _)

/-- a successful character literal consumes at least one character. -/
theorem read_character_length : ∀ {input : List Char} {t : Token} {rest : List Char},
    read_character input = .ok (t, rest) → rest.length < input.length := by
  intro input t rest h
  rw [read_character.eq_def] at h
  split at h <;> (try split at h) <;> (try split at h) <;> simp_all <;> omega

/-- the digit loop never lengthens the input. -/
theorem read_number_loop_length (acc : Int) : ∀ l : List Char,
    ((read_number_loop acc l).2).length ≤ l.length := by
  intro l
  induction l generalizing acc with
  | nil => simp [read_number_loop]
  | cons c rest ih =>
    rw [read_number_loop]
    split
    · exact Nat.le_trans (ih _) (Nat.le_succ _)
    · simp

/-- a successful string body consumes at least the closing quote. -/
theorem read_string_loop_length : ∀ (buf l : List Char) {t : Token} {rest : List Char},
    read_string_loop buf l = .ok (t, rest) → rest.length < l.length := by
  intro buf l
  induction buf, l using read_string_loop.induct <;>
    intro t rest h <;>
    rw [read_string_loop.eq_def] at h <;>
    simp_all <;>
    omega

/-- the identifier loop never lengthens the input. -/
theorem read_ident_loop_length : ∀ {l buf : List Char} {t : Token} {rest : List Char},
    read_ident_loop buf l = .ok (t, rest) → rest.length ≤ l.length := by
  intro l
  induction l with
  | nil =>
    intro buf t rest h
    simp only [read_ident_loop, Except.ok.injEq, Prod.mk.injEq] at h
    simp [← h.2]
  | cons c cs ih =>
    intro buf t rest h
    rw [read_ident_loop] at h
    split at h
    · simp only [Except.ok.injEq, Prod.mk.injEq] at h
      simp [← h.2]
    · split at h
      · exact Nat.le_trans (ih h) (Nat.le_succ _)
      · simp at h

/-- a successful read_token that produced a token consumed at least one
character. -/
theorem read_token_some_length : ∀ {input : List Char} {t : Token} {rest : List Char},
    read_token input = .ok (some t, rest) → rest.length < input.length := by
  intro input t rest h
  rw [read_token] at h
  split at h
  · simp at h
  case _ c r0 heq =>
    have hr0 : r0.length + 1 ≤ input.length := by
      have := (skip_whitespace_length input).1
      rw [heq] at this
      simpa using this
    split at h
    · simp_all; omega
    split at h
    · simp_all; omega
    split at h
    · simp_all; omega
    split at h
    · simp_all; omega
    split at h
    · simp_all; omega
    split at h
    · -- comma
      split at h <;> (simp_all; omega)
    split at h
    · -- hash
      split at h
      · simp at h
      · simp_all; omega
      · simp_all; omega
      · -- character literal
        rename_i r2
        cases hrc : read_character r2 with
        | error e => rw [hrc] at h; simp [Except.map] at h
        | ok p =>
          obtain ⟨pt, pr⟩ := p
          rw [hrc] at h
          simp only [Except.map, Except.ok.injEq, Prod.mk.injEq, Option.some.injEq] at h
          obtain ⟨-, h2⟩ := h
          subst h2
          have hlen := read_character_length hrc
          simp only [List.length_cons] at hr0
          omega
      · simp_all; omega
      · simp at h
    split at h
    · -- string
      cases hrs : read_string_loop [] r0 with
      | error e => simp [read_string, hrs, Except.map] at h
      | ok p =>
        obtain ⟨pt, pr⟩ := p
        have hlen := read_string_loop_length [] r0 hrs
        simp only [read_string, hrs, Except.map, Except.ok.injEq, Prod.mk.injEq,
          Option.some.injEq] at h
        obtain ⟨-, h2⟩ := h
        subst h2
        omega
    split at h
    · -- number
      simp only [read_number, Except.ok.injEq, Prod.mk.injEq, Option.some.injEq] at h
      have hlen := read_number_loop_length ((c.toNat : Int) - 48) r0
      obtain ⟨-, h2⟩ := h
      rw [← h2]
      omega
    · -- identifier
      rw [read_identifier] at h
      split at h
      · cases hri : read_ident_loop [c] r0 with
        | error e => rw [hri] at h; simp [Except.map] at h
        | ok p =>
          obtain ⟨pt, pr⟩ := p
          have hlen := read_ident_loop_length hri
          rw [hri] at h
          simp only [Except.map, Except.ok.injEq, Prod.mk.injEq, Option.some.injEq] at h
          obtain ⟨-, h2⟩ := h
          subst h2
          omega
      · split at h
        · simp only [Except.map, Except.ok.injEq, Prod.mk.injEq, Option.some.injEq] at h
          obtain ⟨-, h2⟩ := h
          subst h2
          omega
        · simp [Except.map] at h

/-- the token-stream driver: `while (input.get()) read_token(input);`
from atom_api_load.  The input is assumed to contain no NUL byte, so
`input.get() == 0` exactly when the list is empty. -/
def tokenize_loop (input : List Char) : Except LexErr (List Token) :=
  if h : input = [] then .ok []
  else
    match hrt : read_token input with
    | .error e => .error e
    | .ok (none, _) => .ok []
    | .ok (some t, rest) => (tokenize_loop rest).map (fun ts => t :: ts)
termination_by input.length
decreasing_by exact read_token_some_length hrt

/-- tokenization of a whole buffer, as performed by atom_api_load before
parsing starts. -/
def tokenize (input : List Char) : Except LexErr (List Token) :=
  tokenize_loop input

/-! ## Parser

The recursive-descent parser over the token buffer.  The C functions
share a cursor (`tokens.next`); the embedding threads the remaining
token list through every call.  A returned `none` cell is the C `NULL`
result ("no datum at this position" — also what the literal `()`
contributes as the first element of a list).  The C parser does not
terminate on every token stream (in `parse_vector`, a datum position
that yields `NULL` without consuming a token — a lone `.` — repeats
forever), so the embedding is indexed by fuel and `outOfFuel` marks the
runs the fuel cut short; a run of the C parser that terminates is
reproduced exactly by every sufficiently large fuel. -/

inductive PErr where
  /-- fuel exhausted (no corresponding C behaviour: the C code either
  keeps running or loops forever past this point) -/
  | outOfFuel
  /-- signal_error "unexpected end of input" / "Unexpected end of input." -/
  | unexpectedEnd
  /-- signal_error "expecting a datum after a dot" -/
  | datumAfterDot
  /-- signal_error "expecting )" -/
  | expectRParen
  /-- signal_error "is this unexpected end of input? todo" -/
  | todoEnd
  /-- `tokens.peek()->type` with `peek()` returning `NULL`: a null
  dereference in the dotted-datum arm of parse_list -/
  | nullDeref
deriving Repr, DecidableEq

/-- parse_simple_datum from the source: promotes one simple token to a
cell; `none` when the next token is not simple (or the buffer is done). -/
def parse_simple_datum : List Token → Option (Cell × List Token)
  | [] => none
  | t :: rest =>
    match t with
    | .boolean b => some (.boolean b, rest)
    | .character c => some (.character c, rest)
    | .number n => some (.number n, rest)
    | .identifier s => some (.symbol s, rest)
    | .string s => some (.string s, rest)
    | _ => none

/-- the symbol name that parse_abreviation assigns to an abbreviation
token (`quote`, `quasiquote`, `unquote`, `unquote-splicing`), `none` for
any other token (the function then returns `NULL`). -/
def abbrev_symbol : Token → Option (List Char)
  | .quote => some ("quote".toList)
  | .backtick => some ("quasiquote".toList)
  | .comma => some ("unquote".toList)
  | .commaAt => some ("unquote-splicing".toList)
  | _ => none

/-- the cons chain that parse_list builds: `c0` is the car of the head
cons allocated before the loop, `acc` the cars consed on by the loop in
order, `tail` the cdr installed into the last cons (`NULL`, or the datum
after a dot). -/
def buildChain (c0 : Option Cell) (acc : List Cell) (tail : Option Cell) : Cell :=
  match acc with
  | [] => .pair c0 tail
  | c :: more => .pair c0 (some (buildChain (some c) more tail))

mutual

/-- parse_datum from the source. -/
def parse_datum : Nat → List Token → Except PErr (Option Cell × List Token)
  | 0, _ => .error .outOfFuel
  | n + 1, toks =>
    match parse_simple_datum toks with
    | some (c, rest) => .ok (some c, rest)
    | none => parse_compound_datum n toks

/-- parse_compound_datum from the source: try parse_list, then
parse_vector on the same cursor (parse_list consumes nothing when it
returns `NULL`). -/
def parse_compound_datum : Nat → List Token → Except PErr (Option Cell × List Token)
  | 0, _ => .error .outOfFuel
  | n + 1, toks => do
    let (c, rest) ← parse_list n toks
    match c with
    | some c0 => .ok (some c0, rest)
    | none => parse_vector n rest

/-- parse_list from the source: `NULL` without consuming when the buffer
is exhausted or does not start with `(` and is not an abbreviation. -/
def parse_list : Nat → List Token → Except PErr (Option Cell × List Token)
  | 0, _ => .error .outOfFuel
  | n + 1, toks =>
    match toks with
    | [] => .ok (none, [])
    | t :: rest =>
      if t = .listStart then do
        let (c0, rest1) ← parse_datum n rest
        parse_list_loop n c0 [] rest1
      else parse_abreviation n toks

/-- the `for (;;)` loop of parse_list.  `c0` and `acc` describe the cons
chain built so far (see `buildChain`).  In the dotted arm the C code
checks `tokens.peek()->type != TOKEN_LIST_END` without a null check, so
an exhausted buffer there dereferences null. -/
def parse_list_loop : Nat → Option Cell → List Cell → List Token → Except PErr (Option Cell × List Token)
  | 0, _, _, _ => .error .outOfFuel
  | n + 1, c0, acc, toks =>
    match toks with
    | [] => .error .unexpectedEnd
    | .dot :: rest => do
      let (cd, rest1) ← parse_datum n rest
      match cd with
      | none => .error .datumAfterDot
      | some cd0 =>
        match rest1 with
        | [] => .error .nullDeref
        | .listEnd :: rest2 => .ok (some (buildChain c0 acc (some cd0)), rest2)
        | _ :: _ => .error .expectRParen
    | .listEnd :: rest => .ok (some (buildChain c0 acc none), rest)
    | _ => do
      let (c, rest1) ← parse_datum n toks
      match c with
      | none => .error .todoEnd
      | some c1 => parse_list_loop n c0 (acc ++ [c1]) rest1

/-- parse_abreviation from the source: expands to
`(SYMBOL <datum>)`. -/
def parse_abreviation : Nat → List Token → Except PErr (Option Cell × List Token)
  | 0, _ => .error .outOfFuel
  | n + 1, toks =>
    match toks with
    | [] => .error .unexpectedEnd
    | t :: rest =>
      match abbrev_symbol t with
      | none => .ok (none, toks)
      | some s => do
        let (c, rest1) ← parse_datum n rest
        .ok (some (.pair (some (.symbol s)) (some (.pair c none))), rest1)

/-- parse_vector from the source: `NULL` without consuming when the next
token is not `#(`. -/
def parse_vector : Nat → List Token → Except PErr (Option Cell × List Token)
  | 0, _ => .error .outOfFuel
  | n + 1, toks =>
    match toks with
    | [] => .error .unexpectedEnd
    | t :: rest =>
      if t = .vectorStart then parse_vector_loop n [] rest
      else .ok (none, toks)

/-- the collection loop of parse_vector.  The loop `break`s on a
`TOKEN_LIST_END` WITHOUT consuming it (there is no `tokens.skip()`), so
the closing `)` of every vector is left in the buffer.  A datum position
that yields `NULL` without consuming (a lone `.`) makes the C loop spin
forever; here every fuel runs out. -/
def parse_vector_loop : Nat → List (Option Cell) → List Token → Except PErr (Option Cell × List Token)
  | 0, _, _ => .error .outOfFuel
  | n + 1, acc, toks =>
    match toks with
    | [] => .error .unexpectedEnd
    | .listEnd :: _ => .ok (some (.vector acc), toks)
    | _ => do
      let (c, rest1) ← parse_datum n toks
      parse_vector_loop n (acc ++ [c]) rest1

end

/-! ## Built-ins and evaluator fragments used by the claims -/

/-- the two ways a built-in's run can abort.  `signalled` is
`signal_error`: the message is printed and control unwinds by `longjmp`
to the driver's escape point.  `crash` is a failed `assert` or an
invalid memory access (null-pointer dereference): the process dies (or,
with asserts compiled out, behaviour is undefined); no message, no
unwind. -/
inductive AtomSig where
  | signalled
  | crash
deriving Repr, DecidableEq

/-- is_false from the source: exactly the false boolean.  (The C
function dereferences its argument; callers below check for null
first, mirroring where the dereference would crash.) -/
def is_false : Cell → Bool
  | .boolean b => !b
  | _ => false

/-- atom_null_q from the source, after its single argument has been
evaluated.  `obj = nth_param_any(env, params, 1)`: when the evaluated
argument is the absent (null) reference, `nth_param_any` signals
"Too few parameters passed" — so `null?` can never see the absent
reference as a value.  Otherwise the result is
`obj->type == TYPE_PAIR && car == NULL && cdr == NULL`. -/
def atom_null_q (obj : Option Cell) : Except AtomSig Bool :=
  match obj with
  | none => .error .signalled
  | some (.pair none none) => .ok true
  | some _ => .ok false

/-- outcome of atom_string_ref from the source, after parameter
extraction (`s` the string argument, `k` the integer argument as the C
`int` cast of the double). -/
inductive StringRefResult where
  /-- signal_error "k is not a valid index of the given string" -/
  | domainError
  | char (c : Char)
  /-- `string->data.string[k]` with `k` beyond the NUL terminator:
  a read past the end of the allocated buffer (undefined behaviour) -/
  | readPastEnd
deriving Repr, DecidableEq

/-- atom_string_ref from the source.  The bounds check is
`if (k < 0 || k < (int)strlen(...)) signal_error(...)` — it signals for
every in-range index and falls through to the buffer access for every
index `>=` the length (`k = length` reads the NUL terminator, anything
larger reads past the buffer). -/
def atom_string_ref (s : List Char) (k : Int) : StringRefResult :=
  if k < 0 ∨ k < (s.length : Int) then .domainError
  else if k = (s.length : Int) then .char (Char.ofNat 0)
  else .readPastEnd

/-- atom_and from the source, parameterized by the evaluator (`evalF`
plays `eval(env, expr)`; its `.error` is a signalled error, i.e. a
longjmp out of `atom_and` altogether).  With no operands
(`params == NULL`) the guard `if (!car(params))` calls `car(NULL)`,
whose `assert(cell->type == TYPE_PAIR)` dereferences a null pointer:
a crash, before anything is evaluated or signalled. -/
def atom_and (evalF : Cell → Except AtomSig (Option Cell)) (params : Option Cell) :
    Except AtomSig (Option Cell) :=
  match params with
  | none => .error .crash
  | some (.pair a d) =>
    match a with
    | none => .error .signalled
    | some _ => atom_and_loop evalF (.pair a d)
  | some _ => .error .crash
where
  /-- the `for (cell = params; cell; cell = cdr(cell))` loop of atom_and:
  evaluate the car, return the value if it is the false boolean,
  otherwise continue; the last value is returned when the chain ends. -/
  atom_and_loop (evalF : Cell → Except AtomSig (Option Cell)) : Cell → Except AtomSig (Option Cell)
    | .pair a d => do
      let av ← match a with
        | none => (.error .crash : Except AtomSig (Option Cell))
        | some expr => evalF expr
      match av with
      | none => .error .crash
      | some v =>
        if is_false v then .ok (some v)
        else
          match d with
          | none => .ok (some v)
          | some next => atom_and_loop evalF next
    | _ => .error .crash

/-- outcome of a run of the atom_list loop.  The loop body is
`set_car(result, eval(env, car(params))); set_cdr(result, cons(env,
NULL, NULL)); params = cdr(params);` inside `for (;;)` — there is no
exit statement at all, so the run can only crash (when `params` is
exhausted, `car(NULL)` dereferences null), escape through a signalled
evaluation error, or still be running when the fuel ends.  The list
being built is dropped from the model: no control path returns it. -/
inductive ListRunOutcome where
  | crash
  | escaped
  | outOfFuel
deriving Repr, DecidableEq

/-- the `for (;;)` loop of atom_list from the source. -/
def atom_list_loop (evalF : Cell → Except AtomSig (Option Cell)) :
    Option Cell → Nat → ListRunOutcome
  | _, 0 => .outOfFuel
  | params, fuel + 1 =>
    match params with
    | none => .crash
    | some (.pair a d) =>
      match a with
      | none => .crash
      | some expr =>
        match evalF expr with
        | .error _ => .escaped
        | .ok _ => atom_list_loop evalF d fuel
    | some _ => .crash

/-- a proper argument chain (the `params` list the evaluator hands a
built-in), as the C parser and evaluator build it: a null-terminated
chain of pairs whose cars are the argument expressions. -/
def argChain : List Cell → Option Cell
  | [] => none
  | c :: cs => some (.pair (some c) (argChain cs))

/-! ## Environment: set

`create_environment` always makes frames of capacity 1
(`env->init(cont, 1, parent)`), so `mask = 0` and the whole hash table
is the single bucket chain `data[0]`, an association list in
most-recently-defined-first order. -/

/-- one environment frame: the single bucket chain. -/
abbrev Frame := List (List Char × Cell)

/-- the bucket-chain walk of environment_set inside one frame: update
the first node whose symbol matches, `none` when the name is unbound in
this frame. -/
def frame_update : Frame → List Char → Cell → Option Frame
  | [], _, _ => none
  | (k, v) :: rest, name, value =>
    if k = name then some ((k, value) :: rest)
    else (fun r => (k, v) :: r) <$> frame_update rest name value

/-- outcome of environment_set. -/
inductive SetOutcome where
  | updated (frames : List Frame)
  /-- the do/while walk left `env == NULL`, and the code then evaluates
  `signal_error(env->cont, ...)`: `env->cont` dereferences the null
  pointer BEFORE any error can be signalled. -/
  | nullDeref

/-- environment_set from the source: walk the frame chain from the
current frame through the parents, update the first binding found; when
no frame binds the name the loop exits with `env == NULL` and the
error path dereferences it. -/
def environment_set : List Frame → List Char → Cell → SetOutcome
  | [], _, _ => .nullDeref
  | f :: parents, name, value =>
    match frame_update f name value with
    | some f2 => .updated (f2 :: parents)
    | none =>
      match environment_set parents name value with
      | .updated ps => .updated (f :: ps)
      | .nullDeref => .nullDeref

/-! ## Pair heap

For the claims about `append` / `length` the identity and mutation of
pair cells matter, so pairs live in an explicit heap: cell `a` is
`(heap.cells).get? a = some (car, cdr)`.  `cons` appends (addresses are
allocation order and cells never move).  The only non-pair cells these
claims need are numbers, which carry no references and whose identity
never matters, so they are embedded immediately in `HVal`. -/

/-- a `Cell*` value stored in a car or cdr slot: a number cell or a
reference to a pair cell. -/
inductive HVal where
  | num (n : Int)
  | ref (a : Nat)
deriving Repr, DecidableEq

/-- the pair cells of the interpreter heap. -/
structure Heap where
  cells : List (Option HVal × Option HVal)
deriving Repr, DecidableEq

/-- cons from the source: a fresh pair cell. -/
def Heap.consCell (h : Heap) (a d : Option HVal) : Nat × Heap :=
  (h.cells.length, ⟨h.cells ++ [(a, d)]⟩)

/-- the cell behind an address, if the address is valid. -/
def Heap.cellAt (h : Heap) (a : Nat) : Option (Option HVal × Option HVal) :=
  h.cells.get? a

/-- set_cdr from the source (on a valid address; every use below is on
an address just read). -/
def Heap.setCdr (h : Heap) (a : Nat) (v : Option HVal) : Heap :=
  match h.cellAt a with
  | some (car, _) => ⟨h.cells.set a (car, v)⟩
  | none => h

/-- result of a heap-manipulating run. -/
inductive HeapRes (α : Type) where
  | ok (val : α) (heap : Heap)
  /-- signal_error longjmp (type error from a parameter check) -/
  | signalled
  /-- failed assert / null dereference -/
  | crash
  | outOfFuel
deriving Repr, DecidableEq

/-- duplicate from the source: `cons(env, car(list), cdr(list))` — ONLY
the head cell is copied, the whole tail is shared.  `NULL` duplicates to
`NULL`; a non-pair asserts. -/
def duplicate (h : Heap) (list : Option HVal) : HeapRes (Option HVal) :=
  match list with
  | none => .ok none h
  | some (.num _) => .crash
  | some (.ref a) =>
    match h.cellAt a with
    | none => .crash
    | some (car, cdr) =>
      let (a2, h2) := h.consCell car cdr
      .ok (some (.ref a2)) h2

/-- the cdr walk of append_destructive: find the first cell of the chain
whose cdr is null and overwrite that cdr with `b`.  `fuel` bounds the
walk (the C loop runs forever on a cyclic chain); on the finite chains
of the claims any fuel above the chain length reproduces the C run. -/
def append_walk (h : Heap) (b : Option HVal) : HVal → Nat → HeapRes Unit
  | _, 0 => .outOfFuel
  | current, fuel + 1 =>
    match current with
    | .num _ => .crash
    | .ref a =>
      match h.cellAt a with
      | none => .crash
      | some (_, cdr) =>
        match cdr with
        | none => .ok () (h.setCdr a b)
        | some nxt => append_walk h b nxt fuel

/-- append_destructive from the source: `if (!a) return b;` then walk
`a`'s chain to the last cell and `set_cdr(current, b); return a;`. -/
def append_destructive (h : Heap) (a b : Option HVal) (fuel : Nat) : HeapRes (Option HVal) :=
  match a with
  | none => .ok b h
  | some a0 =>
    match append_walk h b a0 fuel with
    | .ok () h2 => .ok a h2
    | .signalled => .signalled
    | .crash => .crash
    | .outOfFuel => .outOfFuel

/-- the argument loop of atom_append from the source, over the already
evaluated argument values: `nth_param_optional(env, params, n,
TYPE_PAIR)` yields the n-th value — a missing argument (or one that
evaluated to the absent reference) breaks the loop, a non-pair value
fails the type check (signal_error), and a pair value is appended with
`append_destructive(result, duplicate(list))`. -/
def atom_append_loop (h : Heap) (fuel : Nat) (result : Option HVal) :
    List (Option HVal) → HeapRes (Option HVal)
  | [] => .ok result h
  | none :: _ => .ok result h
  | some (.num _) :: _ => .signalled
  | some (.ref a) :: more =>
    match duplicate h (some (.ref a)) with
    | .ok dup h2 =>
      match append_destructive h2 result dup fuel with
      | .ok r h3 => atom_append_loop h3 fuel r more
      | .signalled => .signalled
      | .crash => .crash
      | .outOfFuel => .outOfFuel
    | .signalled => .signalled
    | .crash => .crash
    | .outOfFuel => .outOfFuel

/-- atom_append from the source. -/
def atom_append (h : Heap) (args : List (Option HVal)) (fuel : Nat) : HeapRes (Option HVal) :=
  atom_append_loop h fuel none args

/-- the counting loop of atom_length from the source: `int length = 1;
for (Cell* list = ...; list; list = list->data.pair.cdr)
{ type_check(TYPE_PAIR, list->type); length++; }` — note the count
STARTS AT 1 and is incremented once per pair cell of the chain. -/
def atom_length_loop (h : Heap) (len : Int) : Option HVal → Nat → HeapRes Int
  | none, _ => .ok len h
  | some _, 0 => .outOfFuel
  | some v, fuel + 1 =>
    match v with
    | .num _ => .signalled
    | .ref a =>
      match h.cellAt a with
      | none => .crash
      | some (_, cdr) => atom_length_loop h (len + 1) cdr fuel

/-- atom_length from the source, over the evaluated argument. -/
def atom_length (h : Heap) (v : Option HVal) (fuel : Nat) : HeapRes Int :=
  atom_length_loop h 1 v fuel

/-- `HeapChain h v as vs`: starting from the value `v`, the heap `h`
holds a proper cons chain through the pair cells at addresses `as` (in
order), whose cars are `vs`, terminated by the absent (null) cdr. -/
inductive HeapChain (h : Heap) : Option HVal → List Nat → List (Option HVal) → Prop where
  | nil : HeapChain h none [] []
  | cons (a : Nat) (car cdr : Option HVal) (as : List Nat) (vs : List (Option HVal)) :
      h.cellAt a = some (car, cdr) → HeapChain h cdr as vs →
      HeapChain h (some (.ref a)) (a :: as) (car :: vs)

/-! ## Boolean singletons and the collector -/

/-- cell identities for the boolean-singleton claim: the two file-scope
static cells `cell_true` / `cell_false`, and heap cells numbered by
allocation order. -/
inductive CellId where
  | staticTrue
  | staticFalse
  | heapCell (n : Nat)
deriving Repr, DecidableEq

/-- the allocation side of a Continuation: `cells` is the `cont->cells`
allocation list (newest first), `counter` counts allocations (fresh
identities). -/
structure AllocState where
  cells : List CellId
  counter : Nat
deriving Repr, DecidableEq

/-- make_cell from the source: malloc a fresh cell and prepend it to the
allocation list.  The static boolean cells are never produced. -/
def make_cell (s : AllocState) : CellId × AllocState :=
  (.heapCell s.counter, ⟨.heapCell s.counter :: s.cells, s.counter + 1⟩)

/-- make_boolean from the source: `value ? &cell_true : &cell_false` —
always one of the two static singletons, never an allocation. -/
def make_boolean (b : Bool) : CellId :=
  if b then .staticTrue else .staticFalse

/-- the TOKEN_BOOLEAN arm of parse_simple_datum from the source: the
reader does NOT call make_boolean — it allocates a fresh heap cell with
`make_cell(tokens.env, TYPE_BOOLEAN)`. -/
def parse_boolean_cell (s : AllocState) : CellId × AllocState :=
  make_cell s

/-- the set of cells freed by the sweep phase of collect_garbage: the
cells on the allocation list whose mark bit is clear.  Cells not on
`cont->cells` are never even visited. -/
def sweep_frees (marked : CellId → Bool) (s : AllocState) : List CellId :=
  s.cells.filter (fun c => !marked c)

/-! ## Ports -/

/-- a `FILE*`: the process's standard input or output, or a handle from
fopen. -/
inductive Handle where
  | standardIn
  | standardOut
  | fileHandle (n : Nat)
deriving Repr, DecidableEq

inductive PortKind where
  | input
  | output
deriving Repr, DecidableEq

/-- the fclose decision of the sweep phase for an unmarked port cell:
`if (cell->data.input_port != stdin) fclose(...)` for input ports,
`if (cell->data.output_port != stdout) fclose(...)` for output ports.
`some h` means `h` gets closed; `none` means no close happens. -/
def sweep_port_close : PortKind → Handle → Option Handle
  | .input, h => if h = .standardIn then none else some h
  | .output, h => if h = .standardOut then none else some h

/-- atom_close_input_port from the source:
`fclose(port->data.input_port)` — unconditional; the result is the
handle that gets closed. -/
def atom_close_input_port (portHandle : Handle) : Handle :=
  portHandle

/-- atom_close_output_port from the source: also an unconditional
fclose. -/
def atom_close_output_port (portHandle : Handle) : Handle :=
  portHandle

/-- cont->input as initialized by atom_api_open (`cont->input = stdin`;
nothing in the interpreter ever reassigns it). -/
def cont_input_init : Handle := .standardIn

/-- atom_current_input_port from the source:
`make_input_port(env, env->cont->input)` — a port cell whose handle is
the continuation's current input. -/
def atom_current_input_port (contInput : Handle) : Handle :=
  contInput

/-! ## The written form of a datum, described at the token level

`tokensOfD d` is the token list that the lexer produces from
`print_rec (some d) false true`; the round-trip proof establishes this
as a theorem for the class of data defined below.  `chainToks2` lists
the tokens of a cons chain without the surrounding parentheses
(`print_rec` with `is_car = 0`), `vecToks` those of a vector's element
list. -/

mutual

def tokensOfD : Cell → List Token
  | .boolean b => [.boolean b]
  | .number n => [.number n]
  | .character c => [.character c]
  | .string s => [.string s]
  | .symbol s => [.identifier s]
  | .pair a d => .listStart :: chainToks a d ++ [.listEnd]
  | .vector es => .vectorStart :: vecToks es ++ [.listEnd]
termination_by c => sizeOf c

/-- tokens of the cons chain `pair a d`, without the surrounding
parentheses. -/
def chainToks (a : Option Cell) (d : Option Cell) : List Token :=
  (match a with
   | none => []
   | some c => tokensOfD c) ++
  (match d with
   | none => []
   | some (.pair x y) => chainToks x y
   | some c => .dot :: tokensOfD c)
termination_by sizeOf a + sizeOf d

def vecToks : List (Option Cell) → List Token
  | [] => []
  | (none) :: es => vecToks es
  | (some c) :: es => tokensOfD c ++ vecToks es
termination_by es => sizeOf es

end

/-- tokens of an optional car/element: nothing for the absent
reference. -/
def optToks : Option Cell → List Token
  | none => []
  | some c => tokensOfD c

mutual

/-- the number of `TOKEN_LIST_END` tokens that parsing this datum leaves
unconsumed in the buffer (because `parse_vector` breaks on the closing
`)` of a vector without skipping it, and every enclosing list or vector
then terminates on a leftover `)` instead of its own).  Atoms parse
cleanly; a vector always leaves one more `)` than its last element; a
list leaves whatever its last element leaves. -/
def dirt : Cell → Nat
  | .pair a d =>
    match d with
    | none =>
      (match a with
       | none => 0
       | some c => dirt c)
    | some (.pair x y) => dirt (.pair x y)
    | some c => dirt c
  | .vector es => 1 + vecDirt es
  | _ => 0

def vecDirt : List (Option Cell) → Nat
  | [] => 0
  | [none] => 0
  | [some c] => dirt c
  | _ :: es => vecDirt es

end

/-- dirt of an optional cell. -/
def optDirt : Option Cell → Nat
  | none => 0
  | some c => dirt c

/-- characters whose written form re-lexes as the same character
whenever a delimiter follows: space and newline (printed as their named
literals) and every other nonzero ASCII character except `s` and `n` —
the `'s'`/`'n'` arms of read_character consume a lookahead character, so
a written `#\s` or `#\n` eats the delimiter after it. -/
def good_char (c : Char) : Bool :=
  c = ' ' ∨ c = '\n' ∨
  (c.toNat ≠ 0 ∧ c.toNat < 128 ∧ c ≠ 's' ∧ c ≠ 'n')

/-- symbol names the lexer can produce: a peculiar identifier `+`/`-`,
or an initial character followed by subsequent characters. -/
def good_symbol (s : List Char) : Bool :=
  decide (s = ['+']) || decide (s = ['-']) ||
  (match s with
   | [] => false
   | c :: rest => is_initial c && rest.all is_subsequent)

/-- true when the cell is not a pair (vector elements print without
parentheses, so pairs are excluded from good vectors). -/
def not_pair : Cell → Bool
  | .pair _ _ => false
  | _ => true

mutual

/-- the class of data for which the amended round-trip claim is proved:
booleans; integral numbers in `[0, 10^6)`; characters per `good_char`;
lexable symbols; proper lists (non-empty, null-terminated, cars present)
whose non-final elements parse cleanly (`dirt = 0`); and vectors whose
elements are non-pair good data, the non-final ones clean.  Strings are
excluded by the claim itself (every string of the interpreter is a
mutable buffer); dotted pairs are excluded because `equal?` crashes on
distinct dotted pairs (`pair_equal` recurses into non-pair cdrs, where
`car()` asserts); the empty list `()` is excluded because its
representation `pair(NULL, NULL)` makes `equal?` dereference the null
cars. -/
inductive Good : Cell → Prop where
  | bool (b : Bool) : Good (.boolean b)
  | num (n : Int) : 0 ≤ n → n < 1000000 → Good (.number n)
  | chr (c : Char) : good_char c = true → Good (.character c)
  | sym (s : List Char) : good_symbol s = true → Good (.symbol s)
  | lastCar (c : Cell) : Good c → Good (.pair (some c) none)
  | consCar (c : Cell) (a : Option Cell) (d : Option Cell) :
      Good c → dirt c = 0 → Good (.pair a d) →
      Good (.pair (some c) (some (.pair a d)))
  | vec (es : List (Option Cell)) : GoodVec es → Good (.vector es)

/-- good vector element lists (see `Good`). -/
inductive GoodVec : List (Option Cell) → Prop where
  | nil : GoodVec []
  | lastE (c : Cell) : Good c → not_pair c = true → GoodVec [some c]
  | consE (c : Cell) (e : Option Cell) (es : List (Option Cell)) :
      Good c → not_pair c = true → dirt c = 0 →
      GoodVec (e :: es) → GoodVec (some c :: e :: es)

end

mutual

/-- fuel under which the parser is proved to complete on the written
tokens of a good datum (each nested C call peels one fuel unit; the
bounds below are comfortable over-approximations). -/
def parseFuel : Cell → Nat
  | .boolean _ => 2
  | .number _ => 2
  | .character _ => 2
  | .string _ => 2
  | .symbol _ => 2
  | .pair a d =>
    5 + (match a with
         | none => 0
         | some c => parseFuel c) +
        (match d with
         | none => 1
         | some c => 2 + parseFuel c)
  | .vector es => 5 + vecFuel es
termination_by c => sizeOf c

def vecFuel : List (Option Cell) → Nat
  | [] => 1
  | (none) :: es => 2 + vecFuel es
  | (some c) :: es => 2 + parseFuel c + vecFuel es
termination_by es => sizeOf es

end

/-- fuel of an optional cell. -/
def optFuel : Option Cell → Nat
  | none => 0
  | some c => parseFuel c

/-! ## Concrete data for claims C7 and C10 -/

/-- heap holding xs = (1 2) at addresses 0,1 and ys = (3 4) at 2,3. -/
def c7_heap : Heap :=
  ⟨[(some (.num 1), some (.ref 1)), (some (.num 2), none),
    (some (.num 3), some (.ref 3)), (some (.num 4), none)]⟩

/-- the run `(length (append xs ys))` on `c7_heap`: append, then length
of the result in the mutated heap. -/
def c7_final_length : HeapRes Int :=
  match atom_append c7_heap [some (.ref 0), some (.ref 2)] 10 with
  | .ok r h2 => atom_length h2 r 10
  | .signalled => .signalled
  | .crash => .crash
  | .outOfFuel => .outOfFuel

/-- the character that follows a datum in printed output: nothing (end
of buffer), a separating space, a closing parenthesis, or the final
newline of `print`. -/
def boundaryB : List Char → Bool
  | [] => true
  | c :: _ => c = ' ' || c = ')' || c = '\n'

/-- the list of cars of a cons chain (used to describe what the
parse_list loop accumulates). -/
def chainCars : Cell → List Cell
  | .pair (some c) (some (.pair x y)) => c :: chainCars (.pair x y)
  | .pair (some c) _ => [c]
  | _ => []
termination_by c => sizeOf c

def digitsVal (acc : Int) (ds : List Char) : Int :=
  ds.foldl (fun a c => a * 10 + ((c.toNat : Int) - 48)) acc

/-! ## Clean unfolding lemmas for the token driver

`tokenize_loop` is defined by well-founded recursion through a
dependent match; these two lemmas restate its behaviour in plain
rewriting form. -/

theorem tokenize_loop_nil : tokenize_loop [] = .ok [] := by
  rw [tokenize_loop]
  rfl

theorem tokenize_loop_cons (c : Char) (rest : List Char) :
    tokenize_loop (c :: rest) = match read_token (c :: rest) with
      | .error e => .error e
      | .ok (none, _) => .ok []
      | .ok (some t, r2) => (tokenize_loop r2).map (fun ts => t :: ts) := by
  rw [tokenize_loop]
  simp only [reduceCtorEq, dite_false]
  cases hread : read_token (c :: rest) with
  | error e => rfl
  | ok p =>
    obtain ⟨t?, r2⟩ := p
    cases t? <;> rfl

/-! ## Round-trip lemmas for the amended claim C2

Reflexivity of eq_helper on the Good class, compositional correctness of
the lexer on printed output, and fuel-indexed correctness of the parser
on the token list of a good datum. -/

theorem eq_helper_refl : ∀ (d : Cell), Good d →
    eq_helper (some d) (some d) true true = some true := by
  intro d h
  refine @Good.rec
    (fun d _ => eq_helper (some d) (some d) true true = some true)
    (fun es _ => vec_elems_equal es es = some true)
    ?_ ?_ ?_ ?_ ?_ ?_ ?_ ?_ ?_ ?_ d h
  · intro b
    simp [eq_helper]
  · intro n h1 h2
    simp [eq_helper]
  · intro c hc
    simp [eq_helper]
  · intro s hs
    simp [eq_helper]
  · intro c hc IH
    simp [eq_helper, pair_equal, IH]
  · intro c a dd hc hdirt hp IHc IHp
    have hp2 : pair_equal (some (.pair a dd)) (some (.pair a dd)) true = some true := by
      simpa [eq_helper] using IHp
    simp [eq_helper, pair_equal, IHc, hp2]
  · intro es hes IH
    simp [eq_helper, vector_equal, IH]
  · simp [vec_elems_equal]
  · intro c hc hnp IHc
    simp [vec_elems_equal, IHc]
  · intro c e es hc hnp hd hes IHc IHes
    simp [vec_elems_equal, IHc, IHes]

theorem skip_whitespace_ws (c : Char) (h : c = ' ' ∨ c = '\n') (x : List Char) :
    skip_whitespace (c :: x) = skip_whitespace x := by
  rcases h with rfl | rfl <;> simp [skip_whitespace]

theorem read_token_ws (c : Char) (h : c = ' ' ∨ c = '\n') (x : List Char) :
    read_token (c :: x) = read_token x := by
  unfold read_token
  rw [skip_whitespace_ws c h]

theorem tokenize_loop_ws (c : Char) (h : c = ' ' ∨ c = '\n') (x : List Char) :
    tokenize_loop (c :: x) = tokenize_loop x := by
  rw [tokenize_loop_cons, read_token_ws c h]
  cases x with
  | nil => simp [read_token, skip_whitespace, tokenize_loop_nil]
  | cons d y => rw [tokenize_loop_cons]

theorem boundary_delim (s : List Char) (h : boundaryB s = true) :
    is_delimeter (cget s) = true := by
  cases s with
  | nil => decide
  | cons c r =>
    simp [boundaryB] at h
    rcases h with (rfl | rfl) | rfl <;> rfl

theorem boundary_not_digit (s : List Char) (h : boundaryB s = true) :
    is_digit (cget s) = false := by
  cases s with
  | nil => decide
  | cons c r =>
    simp [boundaryB] at h
    rcases h with (rfl | rfl) | rfl <;> rfl

theorem natDigits_ne_nil (n : Nat) : natDigits n ≠ [] := by
  rw [natDigits]; split <;> simp

theorem natDigits_digits (n : Nat) : ∀ c ∈ natDigits n, is_digit c = true := by
  induction n using Nat.strong_induction_on with
  | _ n IH =>
    rw [natDigits]
    split
    · rename_i h
      interval_cases n <;> decide
    · rename_i h
      intro c hc
      rw [List.mem_append] at hc
      rcases hc with hc | hc
      · exact IH (n / 10) (Nat.div_lt_self (by omega) (by norm_num)) c hc
      · simp only [List.mem_singleton] at hc
        subst hc
        have h10 : n % 10 < 10 := Nat.mod_lt _ (by norm_num)
        have : n % 10 = 0 ∨ n % 10 = 1 ∨ n % 10 = 2 ∨ n % 10 = 3 ∨ n % 10 = 4 ∨
            n % 10 = 5 ∨ n % 10 = 6 ∨ n % 10 = 7 ∨ n % 10 = 8 ∨ n % 10 = 9 := by omega
        rcases this with h' | h' | h' | h' | h' | h' | h' | h' | h' | h' <;> rw [h'] <;> decide


theorem read_number_loop_digits :
    ∀ (ds s : List Char) (acc : Int),
      (∀ c ∈ ds, is_digit c = true) → is_digit (cget s) = false →
      read_number_loop acc (ds ++ s) = (digitsVal acc ds, s) := by
  intro ds
  induction ds with
  | nil =>
    intro s acc _ hs
    cases s with
    | nil => simp [read_number_loop, digitsVal]
    | cons c r =>
      simp only [cget] at hs
      simp [read_number_loop, hs, digitsVal]
  | cons d ds IH =>
    intro s acc hds hs
    have hd : is_digit d = true := hds d (by simp)
    simp only [List.cons_append, read_number_loop, hd, if_true, List.append_eq]
    rw [IH s _ (fun c hc => hds c (by simp [hc])) hs]
    simp [digitsVal]

theorem digitsVal_append (acc : Int) (xs : List Char) (c : Char) :
    digitsVal acc (xs ++ [c]) = digitsVal acc xs * 10 + ((c.toNat : Int) - 48) := by
  simp [digitsVal, List.foldl_append]

theorem digitsVal_natDigits (n : Nat) :
    ∀ acc : Int, digitsVal acc (natDigits n) = acc * 10 ^ (natDigits n).length + n := by
  induction n using Nat.strong_induction_on with
  | _ n IH =>
    intro acc
    rw [natDigits]
    split
    · rename_i h
      interval_cases n <;> simp +decide [digitsVal] <;> ring
    · rename_i h
      have h10 : n % 10 < 10 := Nat.mod_lt _ (by norm_num)
      have hkey : (10 : Int) * ((n / 10 : Nat) : Int) + ((n % 10 : Nat) : Int) = (n : Int) := by
        have := Nat.div_add_mod n 10
        push_cast
        omega
      have hc : (((Char.ofNat (48 + n % 10)).toNat : Int)) - 48 = ((n % 10 : Nat) : Int) := by
        have : n % 10 = 0 ∨ n % 10 = 1 ∨ n % 10 = 2 ∨ n % 10 = 3 ∨ n % 10 = 4 ∨
            n % 10 = 5 ∨ n % 10 = 6 ∨ n % 10 = 7 ∨ n % 10 = 8 ∨ n % 10 = 9 := by omega
        rcases this with h2 | h2 | h2 | h2 | h2 | h2 | h2 | h2 | h2 | h2 <;> rw [h2] <;> decide
      rw [digitsVal_append, IH (n / 10) (Nat.div_lt_self (by omega) (by norm_num)), hc]
      rw [List.length_append, List.length_singleton]
      calc (acc * 10 ^ (natDigits (n / 10)).length + ((n / 10 : Nat) : Int)) * 10
            + ((n % 10 : Nat) : Int)
          = acc * 10 ^ ((natDigits (n / 10)).length + 1)
            + ((10 : Int) * ((n / 10 : Nat) : Int) + ((n % 10 : Nat) : Int)) := by ring
        _ = acc * 10 ^ ((natDigits (n / 10)).length + 1) + (n : Int) := by rw [hkey]

theorem read_number_natDigits (n : Nat) (s : List Char)
    (hs : is_digit (cget s) = false) :
    read_number (natDigits n ++ s) = (Token.number (n : Int), s) := by
  cases hnd : natDigits n with
  | nil => exact absurd hnd (natDigits_ne_nil n)
  | cons d0 ds =>
    have hall : ∀ c ∈ natDigits n, is_digit c = true := natDigits_digits n
    rw [hnd] at hall
    simp only [List.cons_append, read_number]
    rw [read_number_loop_digits ds s _ (fun c hc => hall c (by simp [hc])) hs]
    have hv := digitsVal_natDigits n 0
    rw [hnd] at hv
    simp only [digitsVal, List.foldl_cons, zero_mul, zero_add] at hv ⊢
    rw [hv]


theorem char_eq_of_toNat (c d : Char) (h : c.toNat = d.toNat) : c = d := by
  apply Char.eq_of_val_eq
  apply UInt32.eq_of_toBitVec_eq
  exact BitVec.eq_of_toNat_eq h

theorem digit_enum (c : Char) (h : is_digit c = true) :
    c = '0' ∨ c = '1' ∨ c = '2' ∨ c = '3' ∨ c = '4' ∨
    c = '5' ∨ c = '6' ∨ c = '7' ∨ c = '8' ∨ c = '9' := by
  simp only [is_digit, Bool.decide_and, Bool.and_eq_true, decide_eq_true_eq] at h
  obtain ⟨h1, h2⟩ := h
  rw [Char.le_def, UInt32.le_def] at h1 h2
  have b1 : 48 ≤ c.toNat := h1
  have b2 : c.toNat ≤ 57 := h2
  have : c.toNat = 48 ∨ c.toNat = 49 ∨ c.toNat = 50 ∨ c.toNat = 51 ∨ c.toNat = 52 ∨
      c.toNat = 53 ∨ c.toNat = 54 ∨ c.toNat = 55 ∨ c.toNat = 56 ∨ c.toNat = 57 := by omega
  rcases this with h | h | h | h | h | h | h | h | h | h
  · exact Or.inl (char_eq_of_toNat c '0' h)
  · exact Or.inr (Or.inl (char_eq_of_toNat c '1' h))
  · exact Or.inr (Or.inr (Or.inl (char_eq_of_toNat c '2' h)))
  · exact Or.inr (Or.inr (Or.inr (Or.inl (char_eq_of_toNat c '3' h))))
  · exact Or.inr (Or.inr (Or.inr (Or.inr (Or.inl (char_eq_of_toNat c '4' h)))))
  · exact Or.inr (Or.inr (Or.inr (Or.inr (Or.inr (Or.inl (char_eq_of_toNat c '5' h))))))
  · exact Or.inr (Or.inr (Or.inr (Or.inr (Or.inr (Or.inr (Or.inl
      (char_eq_of_toNat c '6' h)))))))
  · exact Or.inr (Or.inr (Or.inr (Or.inr (Or.inr (Or.inr (Or.inr (Or.inl
      (char_eq_of_toNat c '7' h))))))))
  · exact Or.inr (Or.inr (Or.inr (Or.inr (Or.inr (Or.inr (Or.inr (Or.inr (Or.inl
      (char_eq_of_toNat c '8' h)))))))))
  · exact Or.inr (Or.inr (Or.inr (Or.inr (Or.inr (Or.inr (Or.inr (Or.inr (Or.inr
      (char_eq_of_toNat c '9' h)))))))))

theorem digit_char_facts (c : Char) (h : is_digit c = true) :
    c ≠ '\n' ∧ c ≠ ' ' ∧ c ≠ '\t' ∧ c ≠ ';' ∧ c ≠ '(' ∧ c ≠ ')' ∧
    c ≠ '\'' ∧ c ≠ '`' ∧ c ≠ '.' ∧ c ≠ ',' ∧ c ≠ '#' ∧ c ≠ '\"' := by
  refine ⟨?_, ?_, ?_, ?_, ?_, ?_, ?_, ?_, ?_, ?_, ?_, ?_⟩ <;>
    (rintro rfl; exact absurd h (by decide))

theorem initial_not_digit (c : Char) (h : is_initial c = true) : is_digit c = false := by
  by_contra hd
  rw [Bool.not_eq_false] at hd
  rcases digit_enum c hd with rfl | rfl | rfl | rfl | rfl | rfl | rfl | rfl | rfl | rfl <;>
    exact absurd h (by decide)

theorem initial_char_facts (c : Char) (h : is_initial c = true) :
    c ≠ '\n' ∧ c ≠ ' ' ∧ c ≠ '\t' ∧ c ≠ ';' ∧ c ≠ '(' ∧ c ≠ ')' ∧
    c ≠ '\'' ∧ c ≠ '`' ∧ c ≠ '.' ∧ c ≠ ',' ∧ c ≠ '#' ∧ c ≠ '\"' := by
  refine ⟨?_, ?_, ?_, ?_, ?_, ?_, ?_, ?_, ?_, ?_, ?_, ?_⟩ <;>
    (rintro rfl; exact absurd h (by decide))

theorem subsequent_not_delimeter (c : Char) (h : is_subsequent c = true) :
    is_delimeter c = false := by
  by_contra hd
  rw [Bool.not_eq_false] at hd
  simp only [is_delimeter, decide_eq_true_eq] at hd
  rcases hd with rfl | rfl | rfl | rfl | rfl | rfl | rfl | rfl <;> exact absurd h (by decide)


theorem skip_whitespace_nonws (c : Char) (x : List Char)
    (h1 : c ≠ '\n') (h2 : c ≠ ' ') (h3 : c ≠ '\t') (h4 : c ≠ ';') :
    skip_whitespace (c :: x) = c :: x := by
  simp only [skip_whitespace]
  rw [if_neg (by simp [h1, h2, h3]), if_neg h4]

theorem read_token_lparen (x : List Char) :
    read_token ('(' :: x) = .ok (some .listStart, x) := by
  unfold read_token
  rw [skip_whitespace_nonws '(' x (by decide) (by decide) (by decide) (by decide)]
  rfl

theorem read_token_rparen (x : List Char) :
    read_token (')' :: x) = .ok (some .listEnd, x) := by
  unfold read_token
  rw [skip_whitespace_nonws ')' x (by decide) (by decide) (by decide) (by decide)]
  rfl

theorem read_token_vstart (x : List Char) :
    read_token ('#' :: '(' :: x) = .ok (some .vectorStart, x) := by
  unfold read_token
  rw [skip_whitespace_nonws '#' _ (by decide) (by decide) (by decide) (by decide)]
  rfl

theorem read_token_bool_true (x : List Char) :
    read_token ('#' :: 't' :: x) = .ok (some (.boolean true), x) := by
  unfold read_token
  rw [skip_whitespace_nonws '#' _ (by decide) (by decide) (by decide) (by decide)]
  rfl

theorem read_token_bool_false (x : List Char) :
    read_token ('#' :: 'f' :: x) = .ok (some (.boolean false), x) := by
  unfold read_token
  rw [skip_whitespace_nonws '#' _ (by decide) (by decide) (by decide) (by decide)]
  rfl

theorem read_token_digit (d0 : Char) (x : List Char) (h : is_digit d0 = true) :
    read_token (d0 :: x)
      = .ok (some (read_number (d0 :: x)).1, (read_number (d0 :: x)).2) := by
  obtain ⟨h1, h2, h3, h4, h5, h6, h7, h8, h9, h10, h11, h12⟩ := digit_char_facts d0 h
  unfold read_token
  rw [skip_whitespace_nonws d0 x h1 h2 h3 h4]
  simp only [h5, h6, h7, h8, h9, h10, h11, h12, h, if_false, if_true, ite_false, ite_true]


theorem ident_start_facts (c : Char)
    (h : (is_initial c || is_peculiar_identifier c) = true) :
    c ≠ '\n' ∧ c ≠ ' ' ∧ c ≠ '\t' ∧ c ≠ ';' ∧ c ≠ '(' ∧ c ≠ ')' ∧
    c ≠ '\'' ∧ c ≠ '`' ∧ c ≠ '.' ∧ c ≠ ',' ∧ c ≠ '#' ∧ c ≠ '\"' ∧
    is_digit c = false := by
  have hnd : is_digit c = false := by
    by_contra hd
    rw [Bool.not_eq_false] at hd
    rcases digit_enum c hd with rfl | rfl | rfl | rfl | rfl | rfl | rfl | rfl | rfl | rfl <;>
      exact absurd h (by decide)
  refine ⟨?_, ?_, ?_, ?_, ?_, ?_, ?_, ?_, ?_, ?_, ?_, ?_, hnd⟩ <;>
    (rintro rfl; exact absurd h (by decide))

theorem read_token_identStart (c : Char) (x : List Char)
    (h : (is_initial c || is_peculiar_identifier c) = true) :
    read_token (c :: x) = (read_identifier (c :: x)).map (fun p => (some p.1, p.2)) := by
  obtain ⟨h1, h2, h3, h4, h5, h6, h7, h8, h9, h10, h11, h12, h13⟩ := ident_start_facts c h
  unfold read_token
  rw [skip_whitespace_nonws c x h1 h2 h3 h4]
  simp only [h5, h6, h7, h8, h9, h10, h11, h12, h13, if_false, if_true, ite_false,
    ite_true, Bool.false_eq_true]

theorem read_ident_loop_all :
    ∀ (cs buf s : List Char),
      (∀ c ∈ cs, is_subsequent c = true) → is_delimeter (cget s) = true →
      read_ident_loop buf (cs ++ s) = .ok (.identifier (buf ++ cs), s) := by
  intro cs
  induction cs with
  | nil =>
    intro buf s _ hs
    cases s with
    | nil => simp [read_ident_loop]
    | cons c r =>
      simp only [cget] at hs
      simp [read_ident_loop, hs]
  | cons c cs IH =>
    intro buf s hcs hs
    have hc : is_subsequent c = true := hcs c (by simp)
    have hnd : is_delimeter c = false := subsequent_not_delimeter c hc
    simp only [List.cons_append, read_ident_loop, hnd, hc, if_false, if_true,
      ite_false, ite_true, Bool.false_eq_true, List.append_eq]
    rw [IH (buf ++ [c]) s (fun d hd => hcs d (by simp [hd])) hs]
    simp

theorem read_token_good_symbol (s0 : List Char) (h : good_symbol s0 = true)
    (s : List Char) (hdel : is_delimeter (cget s) = true) :
    read_token (s0 ++ s) = .ok (some (.identifier s0), s) := by
  simp only [good_symbol, Bool.or_eq_true, decide_eq_true_eq] at h
  rcases h with (rfl | rfl) | h
  · rw [List.cons_append, List.nil_append,
      read_token_identStart '+' s (by decide)]
    rfl
  · rw [List.cons_append, List.nil_append,
      read_token_identStart '-' s (by decide)]
    rfl
  · match s0, h with
    | c :: rest, h =>
      rw [Bool.and_eq_true] at h
      obtain ⟨hc, hrest⟩ := h
      rw [List.all_eq_true] at hrest
      rw [List.cons_append, read_token_identStart c _ (by simp [hc])]
      rw [read_identifier]
      rw [if_pos hc]
      rw [read_ident_loop_all rest [c] s (fun d hd => hrest d hd) hdel]
      rfl


theorem read_token_hash_backslash (x : List Char) :
    read_token ('#' :: '\\' :: x)
      = (read_character x).map (fun p => (some p.1, p.2)) := by
  unfold read_token
  rw [skip_whitespace_nonws '#' _ (by decide) (by decide) (by decide) (by decide)]
  rfl

theorem read_token_char_space (s : List Char) (hdel : is_delimeter (cget s) = true) :
    read_token ('#' :: '\\' :: 's' :: 'p' :: 'a' :: 'c' :: 'e' :: s)
      = .ok (some (.character ' '), s) := by
  rw [read_token_hash_backslash]
  simp [read_character, hdel, Except.map]

theorem read_token_char_newline (s : List Char) (hdel : is_delimeter (cget s) = true) :
    read_token ('#' :: '\\' :: 'n' :: 'e' :: 'w' :: 'l' :: 'i' :: 'n' :: 'e' :: s)
      = .ok (some (.character '\n'), s) := by
  rw [read_token_hash_backslash]
  simp [read_character, hdel, Except.map]

theorem read_character_generic (c : Char) (s : List Char)
    (hs : c ≠ 's') (hn : c ≠ 'n') (hdel : is_delimeter (cget s) = true) :
    read_character (c :: s) = .ok (.character c, s) := by
  rw [read_character.eq_def]
  split <;> simp_all

theorem read_token_char_generic (c : Char) (s : List Char)
    (hs : c ≠ 's') (hn : c ≠ 'n') (hdel : is_delimeter (cget s) = true) :
    read_token ('#' :: '\\' :: c :: s) = .ok (some (.character c), s) := by
  rw [read_token_hash_backslash, read_character_generic c s hs hn hdel]
  rfl


theorem except_map_map {ε α β γ : Type} (e : Except ε α) (f : α → β) (g : β → γ) :
    (e.map f).map g = e.map (fun a => g (f a)) := by
  cases e <;> rfl

theorem print_pair_parens (x y : Option Cell) (hu : Bool) :
    print_rec (some (.pair x y)) hu true
      = '(' :: (print_rec (some (.pair x y)) hu false ++ [')']) := by
  rw [print_rec.eq_def, print_rec.eq_def]
  simp

theorem print_not_pair_is_car (c : Cell) (h : not_pair c = true) (hu b1 b2 : Bool) :
    print_rec (some c) hu b1 = print_rec (some c) hu b2 := by
  cases c <;> simp only [not_pair, Bool.false_eq_true] at h <;> rw [print_rec.eq_def, print_rec.eq_def]

theorem tokenize_loop_token (c : Char) (rest r2 : List Char) (t : Token)
    (h : read_token (c :: rest) = .ok (some t, r2)) :
    tokenize_loop (c :: rest) = (tokenize_loop r2).map (fun ts => t :: ts) := by
  rw [tokenize_loop_cons, h]

theorem lex_good : ∀ (d : Cell), Good d →
    (∀ s, boundaryB s = true →
      tokenize_loop (print_rec (some d) false true ++ s)
        = (tokenize_loop s).map (fun ts => tokensOfD d ++ ts)) ∧
    (∀ a dd, d = .pair a dd → ∀ s,
      tokenize_loop (print_rec (some d) false false ++ ')' :: s)
        = (tokenize_loop s).map (fun ts => (chainToks a dd ++ [Token.listEnd]) ++ ts)) := by
  intro d h
  refine @Good.rec
    (fun d _ =>
      (∀ s, boundaryB s = true →
        tokenize_loop (print_rec (some d) false true ++ s)
          = (tokenize_loop s).map (fun ts => tokensOfD d ++ ts)) ∧
      (∀ a dd, d = .pair a dd → ∀ s,
        tokenize_loop (print_rec (some d) false false ++ ')' :: s)
          = (tokenize_loop s).map (fun ts => (chainToks a dd ++ [Token.listEnd]) ++ ts)))
    (fun es _ => ∀ (first : Bool) (s : List Char),
      tokenize_loop (print_vec_elems es false first ++ ')' :: s)
        = (tokenize_loop s).map (fun ts => (vecToks es ++ [Token.listEnd]) ++ ts))
    ?_ ?_ ?_ ?_ ?_ ?_ ?_ ?_ ?_ ?_ d h
  · -- boolean
    intro b
    refine ⟨?_, fun a dd h2x => nomatch h2x⟩
    intro s hb
    cases b with
    | true =>
      have hpr : print_rec (some (Cell.boolean true)) false true = ['#', 't'] := by
        rw [print_rec.eq_def]
        rfl
      rw [hpr]
      simp only [List.cons_append, List.nil_append]
      rw [tokenize_loop_token _ _ _ _ (read_token_bool_true s)]
      cases htl : tokenize_loop s <;> simp [Except.map, tokensOfD, htl]
    | false =>
      have hpr : print_rec (some (Cell.boolean false)) false true = ['#', 'f'] := by
        rw [print_rec.eq_def]
        rfl
      rw [hpr]
      simp only [List.cons_append, List.nil_append]
      rw [tokenize_loop_token _ _ _ _ (read_token_bool_false s)]
      cases htl : tokenize_loop s <;> simp [Except.map, tokensOfD, htl]
  · -- number
    intro n h1 h2
    refine ⟨?_, fun a dd h2x => nomatch h2x⟩
    intro s hb
    have hpr : print_rec (some (Cell.number n)) false true = natDigits n.natAbs := by
      rw [print_rec.eq_def]
      simp [print_number, not_lt.mpr h1]
    rw [hpr]
    obtain ⟨d0, ds, hnd⟩ : ∃ d0 ds, natDigits n.natAbs = d0 :: ds := by
      cases hx : natDigits n.natAbs with
      | nil => exact absurd hx (natDigits_ne_nil _)
      | cons u v => exact ⟨u, v, rfl⟩
    have hd0 : is_digit d0 = true := by
      have hmem := natDigits_digits n.natAbs d0
      rw [hnd] at hmem
      exact hmem (by simp)
    have hrd : read_token (d0 :: (ds ++ s)) = .ok (some (Token.number ((n.natAbs : Nat) : Int)), s) := by
      have hrn : read_number (d0 :: (ds ++ s)) = (Token.number ((n.natAbs : Nat) : Int), s) := by
        have hh := read_number_natDigits n.natAbs s (boundary_not_digit s hb)
        rw [hnd] at hh
        simpa using hh
      rw [read_token_digit d0 _ hd0, hrn]
    rw [hnd, List.cons_append, tokenize_loop_token _ _ _ _ hrd]
    cases htl : tokenize_loop s <;>
      simp [Except.map, tokensOfD, Int.natAbs_of_nonneg h1, htl]
  · -- character
    intro c hc
    refine ⟨?_, fun a dd h2x => nomatch h2x⟩
    intro s hb
    have hdel := boundary_delim s hb
    by_cases hsp : c = ' '
    · subst hsp
      have hpr : print_rec (some (Cell.character ' ')) false true
          = ['#', '\\', 's', 'p', 'a', 'c', 'e'] := by
        rw [print_rec.eq_def]
        rfl
      rw [hpr]
      simp only [List.cons_append, List.nil_append]
      rw [tokenize_loop_token _ _ _ _ (read_token_char_space s hdel)]
      cases htl : tokenize_loop s <;> simp [Except.map, tokensOfD, htl]
    · by_cases hnl : c = '\n'
      · subst hnl
        have hpr : print_rec (some (Cell.character '\n')) false true
            = ['#', '\\', 'n', 'e', 'w', 'l', 'i', 'n', 'e'] := by
          rw [print_rec.eq_def]
          rfl
        rw [hpr]
        simp only [List.cons_append, List.nil_append]
        rw [tokenize_loop_token _ _ _ _ (read_token_char_newline s hdel)]
        cases htl : tokenize_loop s <;> simp [Except.map, tokensOfD, htl]
      · have hcg : c ≠ 's' ∧ c ≠ 'n' := by
          simp only [good_char, decide_eq_true_eq] at hc
          rcases hc with h | h | h
          · exact absurd h hsp
          · exact absurd h hnl
          · exact ⟨h.2.2.1, h.2.2.2⟩
        have hpr : print_rec (some (Cell.character c)) false true = ['#', '\\', c] := by
          rw [print_rec.eq_def]
          simp only [Bool.false_eq_true, if_false, ite_false]
          rw [if_neg hsp, if_neg hnl]
        rw [hpr]
        simp only [List.cons_append, List.nil_append]
        rw [tokenize_loop_token _ _ _ _ (read_token_char_generic c s hcg.1 hcg.2 hdel)]
        cases htl : tokenize_loop s <;> simp [Except.map, tokensOfD, htl]
  · -- symbol
    intro s0 hs0
    refine ⟨?_, fun a dd h2x => nomatch h2x⟩
    intro s hb
    have hdel := boundary_delim s hb
    have hpr : print_rec (some (Cell.symbol s0)) false true = s0 := by
      rw [print_rec.eq_def]
    rw [hpr]
    obtain ⟨c0, r0, hs0e⟩ : ∃ c0 r0, s0 = c0 :: r0 := by
      cases s0 with
      | nil => simp [good_symbol] at hs0
      | cons u v => exact ⟨u, v, rfl⟩
    have hrt := read_token_good_symbol s0 hs0 s hdel
    rw [hs0e, List.cons_append] at hrt ⊢
    rw [tokenize_loop_token _ _ _ _ hrt]
    cases htl : tokenize_loop s <;> simp [Except.map, tokensOfD, htl]
  · -- lastCar
    intro c hc IH
    have hchain : ∀ s,
        tokenize_loop (print_rec (some (Cell.pair (some c) none)) false false ++ ')' :: s)
          = (tokenize_loop s).map
              (fun ts => (chainToks (some c) none ++ [Token.listEnd]) ++ ts) := by
      intro s
      have hpr : print_rec (some (Cell.pair (some c) none)) false false
          = print_rec (some c) false true := by
        rw [print_rec.eq_def]
        simp
      rw [hpr, IH.1 (')' :: s) rfl,
        tokenize_loop_token _ _ _ _ (read_token_rparen s), except_map_map]
      cases htl : tokenize_loop s <;> simp [Except.map, chainToks, htl]
    refine ⟨?_, ?_⟩
    · intro s hb
      rw [print_pair_parens, List.cons_append, List.append_assoc, List.singleton_append,
        tokenize_loop_token _ _ _ _ (read_token_lparen _), hchain s, except_map_map]
      cases htl : tokenize_loop s <;> simp [Except.map, tokensOfD, htl]
    · intro a dd heq s
      injection heq with h1 h2
      subst h1
      subst h2
      exact hchain s
  · -- consCar
    intro c a dd hc hdirt hp IHc IHp
    have hq := IHp.2 a dd rfl
    have hchain : ∀ s,
        tokenize_loop
            (print_rec (some (Cell.pair (some c) (some (Cell.pair a dd)))) false false
              ++ ')' :: s)
          = (tokenize_loop s).map
              (fun ts =>
                (chainToks (some c) (some (Cell.pair a dd)) ++ [Token.listEnd]) ++ ts) := by
      intro s
      have hpr : print_rec (some (Cell.pair (some c) (some (Cell.pair a dd)))) false false
          = print_rec (some c) false true
            ++ ' ' :: print_rec (some (Cell.pair a dd)) false false := by
        rw [print_rec.eq_def]
        simp
      rw [hpr, List.append_assoc, List.cons_append]
      rw [IHc.1 (' ' :: (print_rec (some (Cell.pair a dd)) false false ++ ')' :: s)) rfl]
      rw [tokenize_loop_ws ' ' (Or.inl rfl), hq s, except_map_map]
      cases htl : tokenize_loop s <;> simp [Except.map, chainToks, htl]
    refine ⟨?_, ?_⟩
    · intro s hb
      rw [print_pair_parens, List.cons_append, List.append_assoc, List.singleton_append,
        tokenize_loop_token _ _ _ _ (read_token_lparen _), hchain s, except_map_map]
      cases htl : tokenize_loop s <;> simp [Except.map, tokensOfD, htl]
    · intro a2 dd2 heq s
      injection heq with h1 h2
      subst h1
      subst h2
      exact hchain s
  · -- vector
    intro es hes IH
    refine ⟨?_, fun a dd h2x => nomatch h2x⟩
    intro s hb
    have hpr : print_rec (some (Cell.vector es)) false true
        = '#' :: '(' :: (print_vec_elems es false true ++ [')']) := by
      rw [print_rec.eq_def]
      rfl
    rw [hpr]
    simp only [List.cons_append]
    rw [List.append_assoc, List.singleton_append,
      tokenize_loop_token _ _ _ _ (read_token_vstart _), IH true s, except_map_map]
    cases htl : tokenize_loop s <;> simp [Except.map, tokensOfD, htl]
  · -- GoodVec nil
    intro first s
    have hpr : print_vec_elems [] false first = [] := by
      rw [print_vec_elems.eq_def]
    rw [hpr, List.nil_append, tokenize_loop_token _ _ _ _ (read_token_rparen s)]
    cases htl : tokenize_loop s <;> simp [Except.map, vecToks, htl]
  · -- GoodVec lastE
    intro c hc hnp IHc
    intro first s
    have hcore : tokenize_loop (print_rec (some c) false true ++ ')' :: s)
        = (tokenize_loop s).map (fun ts => (vecToks [some c] ++ [Token.listEnd]) ++ ts) := by
      rw [IHc.1 (')' :: s) rfl, tokenize_loop_token _ _ _ _ (read_token_rparen s),
        except_map_map]
      cases htl : tokenize_loop s <;> simp [Except.map, vecToks, htl]
    have hpr0 : print_vec_elems [some c] false first
        = (if first then ([] : List Char) else [' ']) ++ print_rec (some c) false false
          ++ print_vec_elems [] false false := by
      rw [print_vec_elems.eq_def]
    have hpr : print_vec_elems [some c] false first
        = (if first then ([] : List Char) else [' ']) ++ print_rec (some c) false true := by
      rw [hpr0, print_vec_elems.eq_def, print_not_pair_is_car c hnp false false true]
      simp
    rw [hpr, List.append_assoc]
    cases first with
    | true =>
      simp only [ite_true, if_true, List.nil_append]
      exact hcore
    | false =>
      simp only [ite_false, Bool.false_eq_true, if_false, List.singleton_append]
      rw [tokenize_loop_ws ' ' (Or.inl rfl)]
      exact hcore
  · -- GoodVec consE
    intro c e es2 hc hnp hdc hrest IHc IHrest
    intro first s
    have hhead : boundaryB (print_vec_elems (e :: es2) false false ++ ')' :: s) = true := by
      rw [print_vec_elems.eq_def]
      simp [boundaryB]
    have hcore : tokenize_loop
        ((print_rec (some c) false true ++ print_vec_elems (e :: es2) false false)
          ++ ')' :: s)
        = (tokenize_loop s).map
            (fun ts => (vecToks (some c :: e :: es2) ++ [Token.listEnd]) ++ ts) := by
      rw [List.append_assoc]
      rw [IHc.1 (print_vec_elems (e :: es2) false false ++ ')' :: s) hhead]
      rw [IHrest false s, except_map_map]
      cases htl : tokenize_loop s <;> simp [Except.map, vecToks, htl]
    have hpr0 : print_vec_elems (some c :: e :: es2) false first
        = (if first then ([] : List Char) else [' ']) ++ print_rec (some c) false false
          ++ print_vec_elems (e :: es2) false false := by
      rw [print_vec_elems.eq_def]
    have hpr : print_vec_elems (some c :: e :: es2) false first
        = (if first then ([] : List Char) else [' ']) ++
          (print_rec (some c) false true ++ print_vec_elems (e :: es2) false false) := by
      rw [hpr0, print_not_pair_is_car c hnp false false true, List.append_assoc]
    rw [hpr, List.append_assoc]
    cases first with
    | true =>
      simp only [ite_true, if_true, List.nil_append]
      exact hcore
    | false =>
      simp only [ite_false, Bool.false_eq_true, if_false, List.singleton_append]
      rw [tokenize_loop_ws ' ' (Or.inl rfl)]
      exact hcore


theorem replicate_listEnd_shift (k : Nat) (rest : List Token) :
    List.replicate k Token.listEnd ++ Token.listEnd :: rest
      = List.replicate (k + 1) Token.listEnd ++ rest := by
  rw [← List.singleton_append, ← List.append_assoc, ← List.replicate_succ']

theorem buildChain_snoc (acc : List Cell) (c0 : Option Cell) (c : Cell)
    (tail : Option Cell) :
    buildChain c0 (acc ++ [c]) tail = buildChain c0 acc (some (.pair (some c) tail)) := by
  induction acc generalizing c0 with
  | nil => rfl
  | cons x xs IH =>
    rw [List.cons_append]
    rw [buildChain, buildChain, IH]

theorem parse_list_loop_close (n : Nat) (c0 : Option Cell) (acc : List Cell)
    (k : Nat) (rest : List Token) :
    parse_list_loop (n + 1) c0 acc (List.replicate k Token.listEnd ++ Token.listEnd :: rest)
      = .ok (some (buildChain c0 acc none), List.replicate k Token.listEnd ++ rest) := by
  cases k with
  | zero => rfl
  | succ k =>
    rw [List.replicate_succ, List.cons_append, replicate_listEnd_shift]
    rfl

theorem parse_list_loop_step (n : Nat) (c0 : Option Cell) (acc : List Cell)
    (t : Token) (ts : List Token) (c1 : Cell) (r1 : List Token)
    (h1 : t ≠ .dot) (h2 : t ≠ .listEnd)
    (hp : parse_datum n (t :: ts) = .ok (some c1, r1)) :
    parse_list_loop (n + 1) c0 acc (t :: ts) = parse_list_loop n c0 (acc ++ [c1]) r1 := by
  cases t <;> simp_all [parse_list_loop] <;> rfl

theorem parse_vector_loop_step (n : Nat) (acc : List (Option Cell))
    (t : Token) (ts : List Token) (c1 : Option Cell) (r1 : List Token)
    (h2 : t ≠ .listEnd)
    (hp : parse_datum n (t :: ts) = .ok (c1, r1)) :
    parse_vector_loop (n + 1) acc (t :: ts) = parse_vector_loop n (acc ++ [c1]) r1 := by
  cases t <;> simp_all [parse_vector_loop] <;> rfl

theorem parse_vector_loop_break (n : Nat) (acc : List (Option Cell)) (k : Nat)
    (rest : List Token) :
    parse_vector_loop (n + 1) acc
        (List.replicate k Token.listEnd ++ Token.listEnd :: rest)
      = .ok (some (.vector acc),
          List.replicate k Token.listEnd ++ Token.listEnd :: rest) := by
  cases k with
  | zero => rfl
  | succ k => rfl

theorem tokensOfD_head (c : Cell) :
    ∃ t ts, tokensOfD c = t :: ts ∧ t ≠ Token.dot ∧ t ≠ Token.listEnd := by
  cases c with
  | boolean b => exact ⟨.boolean b, [], by simp [tokensOfD], by simp, by simp⟩
  | number n => exact ⟨.number n, [], by simp [tokensOfD], by simp, by simp⟩
  | character ch => exact ⟨.character ch, [], by simp [tokensOfD], by simp, by simp⟩
  | string str => exact ⟨.string str, [], by simp [tokensOfD], by simp, by simp⟩
  | symbol sy => exact ⟨.identifier sy, [], by simp [tokensOfD], by simp, by simp⟩
  | pair a d =>
    exact ⟨.listStart, chainToks a d ++ [.listEnd], by simp [tokensOfD], by simp, by simp⟩
  | vector es =>
    exact ⟨.vectorStart, vecToks es ++ [.listEnd], by simp [tokensOfD], by simp, by simp⟩

theorem parse_datum_simple (n : Nat) (t : Token) (rest : List Token) (c : Cell)
    (h : parse_simple_datum (t :: rest) = some (c, rest)) :
    parse_datum (n + 1) (t :: rest) = .ok (some c, rest) := by
  rw [parse_datum, h]

theorem parse_datum_compound (n : Nat) (t : Token) (rest : List Token)
    (res : Except PErr (Option Cell × List Token))
    (hsimple : parse_simple_datum (t :: rest) = none)
    (h : parse_compound_datum n (t :: rest) = res) :
    parse_datum (n + 1) (t :: rest) = res := by
  rw [parse_datum, hsimple, h]

theorem parse_list_ok (n : Nat) (toks r1 r2 : List Token) (c0 : Option Cell) (cc : Cell)
    (h1 : parse_datum n toks = .ok (c0, r1))
    (h2 : parse_list_loop n c0 [] r1 = .ok (some cc, r2)) :
    parse_list (n + 1) (Token.listStart :: toks) = .ok (some cc, r2) := by
  rw [parse_list, if_pos rfl, h1]
  show parse_list_loop n c0 [] r1 = _
  exact h2

theorem parse_compound_ok (n : Nat) (toks r2 : List Token) (cc : Cell)
    (h : parse_list n toks = .ok (some cc, r2)) :
    parse_compound_datum (n + 1) toks = .ok (some cc, r2) := by
  rw [parse_compound_datum, h]
  rfl

theorem parse_datum_listStart (n : Nat) (toks r1 r2 : List Token) (c0 : Option Cell)
    (cc : Cell)
    (h1 : parse_datum n toks = .ok (c0, r1))
    (h2 : parse_list_loop n c0 [] r1 = .ok (some cc, r2)) :
    parse_datum (n + 1 + 1 + 1) (Token.listStart :: toks) = .ok (some cc, r2) :=
  parse_datum_compound _ _ _ _ rfl
    (parse_compound_ok _ _ _ _ (parse_list_ok _ _ _ _ _ _ h1 h2))

theorem parse_list_vs (n : Nat) (toks : List Token) :
    parse_list (n + 1 + 1) (Token.vectorStart :: toks)
      = .ok (none, Token.vectorStart :: toks) := by
  rw [parse_list, if_neg (by simp)]
  rw [parse_abreviation]
  rfl

theorem parse_compound_vec (n : Nat) (toks rest : List Token)
    (res : Except PErr (Option Cell × List Token))
    (h : parse_list n toks = .ok (none, rest))
    (hv : parse_vector n rest = res) :
    parse_compound_datum (n + 1) toks = res := by
  rw [parse_compound_datum, h]
  show parse_vector n rest = res
  exact hv

theorem parse_vector_vs (n : Nat) (toks : List Token)
    (res : Except PErr (Option Cell × List Token))
    (h : parse_vector_loop n [] toks = res) :
    parse_vector (n + 1) (Token.vectorStart :: toks) = res := by
  rw [parse_vector, if_pos rfl, h]

theorem parse_datum_vectorStart (m : Nat) (toks r2 : List Token) (cc : Cell)
    (h : parse_vector_loop (m + 1) [] toks = .ok (some cc, r2)) :
    parse_datum (m + 1 + 1 + 1 + 1) (Token.vectorStart :: toks) = .ok (some cc, r2) :=
  parse_datum_compound _ _ _ _ rfl
    (parse_compound_vec _ _ _ _ (parse_list_vs m toks) (parse_vector_vs _ _ _ h))


theorem tokensOfD_boolean (b : Bool) : tokensOfD (.boolean b) = [.boolean b] := by
  rw [tokensOfD.eq_def]

theorem tokensOfD_number (n : Int) : tokensOfD (.number n) = [.number n] := by
  rw [tokensOfD.eq_def]

theorem tokensOfD_character (c : Char) : tokensOfD (.character c) = [.character c] := by
  rw [tokensOfD.eq_def]

theorem tokensOfD_symbol (s : List Char) : tokensOfD (.symbol s) = [.identifier s] := by
  rw [tokensOfD.eq_def]

theorem tokensOfD_pair (a d : Option Cell) :
    tokensOfD (.pair a d) = .listStart :: chainToks a d ++ [.listEnd] := by
  rw [tokensOfD.eq_def]

theorem tokensOfD_vector (es : List (Option Cell)) :
    tokensOfD (.vector es) = .vectorStart :: vecToks es ++ [.listEnd] := by
  rw [tokensOfD.eq_def]

theorem chainToks_last (c : Cell) : chainToks (some c) none = tokensOfD c := by
  rw [chainToks.eq_def]
  simp

theorem chainToks_cons (c : Cell) (a dd : Option Cell) :
    chainToks (some c) (some (.pair a dd)) = tokensOfD c ++ chainToks a dd := by
  rw [chainToks.eq_def]

theorem vecToks_nil : vecToks [] = [] := by
  rw [vecToks.eq_def]

theorem vecToks_some (c : Cell) (es : List (Option Cell)) :
    vecToks (some c :: es) = tokensOfD c ++ vecToks es := by
  rw [vecToks.eq_def]

theorem dirt_boolean (b : Bool) : dirt (.boolean b) = 0 := by
  rw [dirt.eq_def]

theorem dirt_number (n : Int) : dirt (.number n) = 0 := by
  rw [dirt.eq_def]

theorem dirt_character (c : Char) : dirt (.character c) = 0 := by
  rw [dirt.eq_def]

theorem dirt_symbol (s : List Char) : dirt (.symbol s) = 0 := by
  rw [dirt.eq_def]

theorem dirt_pair_last (c : Cell) : dirt (.pair (some c) none) = dirt c := by
  rw [dirt.eq_def]

theorem dirt_pair_cons (c : Cell) (a dd : Option Cell) :
    dirt (.pair (some c) (some (.pair a dd))) = dirt (.pair a dd) := by
  rw [dirt.eq_def]

theorem dirt_vector (es : List (Option Cell)) : dirt (.vector es) = 1 + vecDirt es := by
  rw [dirt.eq_def]

theorem vecDirt_nil : vecDirt [] = 0 := by
  rw [vecDirt.eq_def]

theorem vecDirt_last (c : Cell) : vecDirt [some c] = dirt c := by
  rw [vecDirt.eq_def]

theorem vecDirt_cons (x y : Option Cell) (es : List (Option Cell)) :
    vecDirt (x :: y :: es) = vecDirt (y :: es) := by
  rw [vecDirt.eq_def]
  cases x <;> rfl

theorem parseFuel_boolean (b : Bool) : parseFuel (.boolean b) = 2 := by
  rw [parseFuel.eq_def]

theorem parseFuel_number (n : Int) : parseFuel (.number n) = 2 := by
  rw [parseFuel.eq_def]

theorem parseFuel_character (c : Char) : parseFuel (.character c) = 2 := by
  rw [parseFuel.eq_def]

theorem parseFuel_symbol (s : List Char) : parseFuel (.symbol s) = 2 := by
  rw [parseFuel.eq_def]

theorem parseFuel_pair_last (c : Cell) :
    parseFuel (.pair (some c) none) = 5 + parseFuel c + 1 := by
  rw [parseFuel.eq_def]

theorem parseFuel_pair_cons (c r : Cell) :
    parseFuel (.pair (some c) (some r)) = 5 + parseFuel c + (2 + parseFuel r) := by
  rw [parseFuel.eq_def]

theorem parseFuel_vector (es : List (Option Cell)) :
    parseFuel (.vector es) = 5 + vecFuel es := by
  rw [parseFuel.eq_def]

theorem vecFuel_nil : vecFuel [] = 1 := by
  rw [vecFuel.eq_def]

theorem vecFuel_none (es : List (Option Cell)) : vecFuel (none :: es) = 2 + vecFuel es := by
  rw [vecFuel.eq_def]

theorem vecFuel_some (c : Cell) (es : List (Option Cell)) :
    vecFuel (some c :: es) = 2 + parseFuel c + vecFuel es := by
  rw [vecFuel.eq_def]


theorem parse_good : ∀ (d : Cell), Good d →
    (∀ n, parseFuel d ≤ n → ∀ rest,
      parse_datum n (tokensOfD d ++ rest)
        = .ok (some d, List.replicate (dirt d) Token.listEnd ++ rest)) ∧
    (∀ a dd, d = .pair a dd → ∀ n, parseFuel d ≤ n → ∀ c0 acc rest,
      parse_list_loop n c0 acc (chainToks a dd ++ Token.listEnd :: rest)
        = .ok (some (buildChain c0 acc (some d)),
            List.replicate (dirt d) Token.listEnd ++ rest)) := by
  intro d h
  refine @Good.rec
    (fun d _ =>
      (∀ n, parseFuel d ≤ n → ∀ rest,
        parse_datum n (tokensOfD d ++ rest)
          = .ok (some d, List.replicate (dirt d) Token.listEnd ++ rest)) ∧
      (∀ a dd, d = .pair a dd → ∀ n, parseFuel d ≤ n → ∀ c0 acc rest,
        parse_list_loop n c0 acc (chainToks a dd ++ Token.listEnd :: rest)
          = .ok (some (buildChain c0 acc (some d)),
              List.replicate (dirt d) Token.listEnd ++ rest)))
    (fun es _ => ∀ n, vecFuel es ≤ n → ∀ acc rest,
      parse_vector_loop n acc (vecToks es ++ Token.listEnd :: rest)
        = .ok (some (.vector (acc ++ es)),
            List.replicate (vecDirt es) Token.listEnd ++ Token.listEnd :: rest))
    ?_ ?_ ?_ ?_ ?_ ?_ ?_ ?_ ?_ ?_ d h
  · -- boolean
    intro b
    refine ⟨?_, fun a dd h2x => nomatch h2x⟩
    intro n hn rest
    rw [parseFuel_boolean] at hn
    obtain ⟨m, rfl⟩ : ∃ m, n = m + 1 := ⟨n - 1, by omega⟩
    rw [tokensOfD_boolean, List.cons_append, dirt_boolean]
    exact parse_datum_simple m _ _ _ rfl
  · -- number
    intro n0 h1 h2
    refine ⟨?_, fun a dd h2x => nomatch h2x⟩
    intro n hn rest
    rw [parseFuel_number] at hn
    obtain ⟨m, rfl⟩ : ∃ m, n = m + 1 := ⟨n - 1, by omega⟩
    rw [tokensOfD_number, List.cons_append, dirt_number]
    exact parse_datum_simple m _ _ _ rfl
  · -- character
    intro c hc
    refine ⟨?_, fun a dd h2x => nomatch h2x⟩
    intro n hn rest
    rw [parseFuel_character] at hn
    obtain ⟨m, rfl⟩ : ∃ m, n = m + 1 := ⟨n - 1, by omega⟩
    rw [tokensOfD_character, List.cons_append, dirt_character]
    exact parse_datum_simple m _ _ _ rfl
  · -- symbol
    intro s0 hs0
    refine ⟨?_, fun a dd h2x => nomatch h2x⟩
    intro n hn rest
    rw [parseFuel_symbol] at hn
    obtain ⟨m, rfl⟩ : ∃ m, n = m + 1 := ⟨n - 1, by omega⟩
    rw [tokensOfD_symbol, List.cons_append, dirt_symbol]
    exact parse_datum_simple m _ _ _ rfl
  · -- lastCar
    intro c hc IHc
    have hloop : ∀ n, parseFuel (Cell.pair (some c) none) ≤ n → ∀ c0 acc rest,
        parse_list_loop n c0 acc (chainToks (some c) none ++ Token.listEnd :: rest)
          = .ok (some (buildChain c0 acc (some (Cell.pair (some c) none))),
              List.replicate (dirt (Cell.pair (some c) none)) Token.listEnd ++ rest) := by
      intro n hn c0 acc rest
      rw [parseFuel_pair_last] at hn
      obtain ⟨m, rfl⟩ : ∃ m, n = m + 1 := ⟨n - 1, by omega⟩
      rw [chainToks_last, dirt_pair_last]
      obtain ⟨t, ts, hte, htd, htl⟩ := tokensOfD_head c
      have hdat : parse_datum m (tokensOfD c ++ (Token.listEnd :: rest))
          = .ok (some c,
              List.replicate (dirt c) Token.listEnd ++ (Token.listEnd :: rest)) :=
        IHc.1 m (by omega) _
      rw [hte, List.cons_append] at hdat
      rw [hte, List.cons_append]
      rw [parse_list_loop_step m c0 acc t _ c _ htd htl hdat]
      obtain ⟨m2, rfl⟩ : ∃ m2, m = m2 + 1 := ⟨m - 1, by omega⟩
      rw [parse_list_loop_close, buildChain_snoc]
    refine ⟨?_, ?_⟩
    · intro n hn rest
      have hn2 := hn
      rw [parseFuel_pair_last] at hn2
      obtain ⟨m, rfl⟩ : ∃ m, n = m + 1 + 1 + 1 := ⟨n - 3, by omega⟩
      rw [tokensOfD_pair, List.cons_append, List.cons_append, List.append_assoc,
        List.singleton_append]
      have hdat : parse_datum m (chainToks (some c) none ++ (Token.listEnd :: rest))
          = .ok (some c,
              List.replicate (dirt c) Token.listEnd ++ (Token.listEnd :: rest)) := by
        rw [chainToks_last]
        exact IHc.1 m (by omega) _
      obtain ⟨m2, rfl⟩ : ∃ m2, m = m2 + 1 := ⟨m - 1, by omega⟩
      have hloop2 : parse_list_loop (m2 + 1) (some c) []
            (List.replicate (dirt c) Token.listEnd ++ (Token.listEnd :: rest))
          = .ok (some (buildChain (some c) [] none),
              List.replicate (dirt c) Token.listEnd ++ rest) :=
        parse_list_loop_close m2 (some c) [] (dirt c) rest
      rw [dirt_pair_last]
      exact parse_datum_listStart (m2 + 1) _ _ _ _ _ hdat hloop2
    · intro a dd heq n hn c0 acc rest
      injection heq with ha hd
      subst ha
      subst hd
      exact hloop n hn c0 acc rest
  · -- consCar
    intro c a dd hc hdirt hp IHc IHp
    have hloopP := IHp.2 a dd rfl
    have hloop : ∀ n, parseFuel (Cell.pair (some c) (some (Cell.pair a dd))) ≤ n →
        ∀ c0 acc rest,
        parse_list_loop n c0 acc
            (chainToks (some c) (some (Cell.pair a dd)) ++ Token.listEnd :: rest)
          = .ok (some (buildChain c0 acc
                (some (Cell.pair (some c) (some (Cell.pair a dd))))),
              List.replicate (dirt (Cell.pair (some c) (some (Cell.pair a dd))))
                Token.listEnd ++ rest) := by
      intro n hn c0 acc rest
      rw [parseFuel_pair_cons] at hn
      obtain ⟨m, rfl⟩ : ∃ m, n = m + 1 := ⟨n - 1, by omega⟩
      rw [chainToks_cons, dirt_pair_cons, List.append_assoc]
      obtain ⟨t, ts, hte, htd, htl⟩ := tokensOfD_head c
      have hdat : parse_datum m
          (tokensOfD c ++ (chainToks a dd ++ Token.listEnd :: rest))
          = .ok (some c, chainToks a dd ++ Token.listEnd :: rest) := by
        have hh := IHc.1 m (by omega) (chainToks a dd ++ Token.listEnd :: rest)
        rw [hdirt] at hh
        simpa using hh
      rw [hte, List.cons_append] at hdat
      rw [hte, List.cons_append]
      rw [parse_list_loop_step m c0 acc t _ c _ htd htl hdat]
      rw [hloopP m (by omega) c0 (acc ++ [c]) rest, buildChain_snoc]
    refine ⟨?_, ?_⟩
    · intro n hn rest
      have hn2 := hn
      rw [parseFuel_pair_cons] at hn2
      obtain ⟨m, rfl⟩ : ∃ m, n = m + 1 + 1 + 1 := ⟨n - 3, by omega⟩
      rw [tokensOfD_pair, List.cons_append, List.cons_append, chainToks_cons,
        dirt_pair_cons, List.append_assoc, List.append_assoc, List.singleton_append]
      have hdat : parse_datum m
          (tokensOfD c ++ (chainToks a dd ++ Token.listEnd :: rest))
          = .ok (some c, chainToks a dd ++ Token.listEnd :: rest) := by
        have hh := IHc.1 m (by omega) (chainToks a dd ++ Token.listEnd :: rest)
        rw [hdirt] at hh
        simpa using hh
      have hloop2 := hloopP m (by omega) (some c) [] rest
      exact parse_datum_listStart m _ _ _ _ _ hdat hloop2
    · intro a2 dd2 heq n hn c0 acc rest
      injection heq with ha hd
      subst ha
      subst hd
      exact hloop n hn c0 acc rest
  · -- vector
    intro es hes IHes
    refine ⟨?_, fun a dd h2x => nomatch h2x⟩
    intro n hn rest
    rw [parseFuel_vector] at hn
    obtain ⟨m, rfl⟩ : ∃ m, n = m + 1 + 1 + 1 + 1 := ⟨n - 4, by omega⟩
    rw [tokensOfD_vector, List.cons_append, List.cons_append, List.append_assoc,
      List.singleton_append, dirt_vector]
    have hlp := IHes (m + 1) (by omega) [] rest
    rw [List.nil_append] at hlp
    have hres := parse_datum_vectorStart m _ _ _ hlp
    rw [hres, replicate_listEnd_shift, Nat.add_comm (vecDirt es) 1]
  · -- GoodVec nil
    intro n hn acc rest
    rw [vecFuel_nil] at hn
    obtain ⟨m, rfl⟩ : ∃ m, n = m + 1 := ⟨n - 1, by omega⟩
    rw [vecToks_nil, List.nil_append, vecDirt_nil, List.append_nil]
    exact parse_vector_loop_break m acc 0 rest
  · -- GoodVec lastE
    intro c hc hnp IHc
    intro n hn acc rest
    rw [vecFuel_some, vecFuel_nil] at hn
    obtain ⟨m, rfl⟩ : ∃ m, n = m + 1 := ⟨n - 1, by omega⟩
    rw [vecToks_some, vecToks_nil, List.append_nil, vecDirt_last]
    obtain ⟨t, ts, hte, htd, htl⟩ := tokensOfD_head c
    have hdat : parse_datum m (tokensOfD c ++ (Token.listEnd :: rest))
        = .ok (some c,
            List.replicate (dirt c) Token.listEnd ++ (Token.listEnd :: rest)) :=
      IHc.1 m (by omega) _
    rw [hte, List.cons_append] at hdat
    rw [hte, List.cons_append]
    rw [parse_vector_loop_step m acc t _ (some c) _ htl hdat]
    obtain ⟨m2, rfl⟩ : ∃ m2, m = m2 + 1 := ⟨m - 1, by omega⟩
    exact parse_vector_loop_break m2 (acc ++ [some c]) (dirt c) rest
  · -- GoodVec consE
    intro c e es2 hc hnp hdc hrest IHc IHrest
    intro n hn acc rest
    rw [vecFuel_some] at hn
    obtain ⟨m, rfl⟩ : ∃ m, n = m + 1 := ⟨n - 1, by omega⟩
    rw [vecToks_some, vecDirt_cons, List.append_assoc]
    obtain ⟨t, ts, hte, htd, htl⟩ := tokensOfD_head c
    have hdat : parse_datum m
        (tokensOfD c ++ (vecToks (e :: es2) ++ Token.listEnd :: rest))
        = .ok (some c, vecToks (e :: es2) ++ Token.listEnd :: rest) := by
      have hh := IHc.1 m (by omega) (vecToks (e :: es2) ++ Token.listEnd :: rest)
      rw [hdc] at hh
      simpa using hh
    rw [hte, List.cons_append] at hdat
    rw [hte, List.cons_append]
    rw [parse_vector_loop_step m acc t _ (some c) _ htl hdat]
    rw [IHrest m (by omega) (acc ++ [some c]) rest, List.append_assoc,
      List.singleton_append]

/-! ## Heap-chain lemmas for the amended claim C10 -/

theorem getLastD_mem (l : List Nat) (a : Nat) : l.getLastD a ∈ a :: l := by
  induction l generalizing a with
  | nil => simp [List.getLastD]
  | cons b l IH =>
    rw [List.getLastD_cons]
    exact List.mem_cons_of_mem a (IH b)

theorem getLastD_irrel (l : List Nat) (hne : l ≠ []) (d1 d2 : Nat) :
    l.getLastD d1 = l.getLastD d2 := by
  cases l with
  | nil => exact absurd rfl hne
  | cons x xs => rw [List.getLastD_cons, List.getLastD_cons]

theorem setCdr_length (h : Heap) (t : Nat) (v : Option HVal) :
    (h.setCdr t v).cells.length = h.cells.length := by
  rw [Heap.setCdr]
  split
  · simp
  · rfl

theorem heapChain_addr_lt (h : Heap) :
    ∀ v as vs, HeapChain h v as vs → ∀ a ∈ as, a < h.cells.length := by
  intro v as vs hc
  induction hc with
  | nil =>
    intro a ha
    simp at ha
  | cons a car cdr as vs hcell hrest IH =>
    intro t ht
    rcases List.mem_cons.mp ht with rfl | ht2
    · by_contra hlt
      push_neg at hlt
      rw [Heap.cellAt, List.get?_eq_none.mpr hlt] at hcell
      exact Option.noConfusion hcell
    · exact IH t ht2

theorem cellAt_append (h : Heap) (extra : List (Option HVal × Option HVal)) (a : Nat)
    (x : Option HVal × Option HVal) (hx : h.cellAt a = some x) :
    Heap.cellAt ⟨h.cells ++ extra⟩ a = some x := by
  have hlt : a < h.cells.length := by
    by_contra hlt
    push_neg at hlt
    rw [Heap.cellAt, List.get?_eq_none.mpr hlt] at hx
    exact Option.noConfusion hx
  rw [Heap.cellAt] at hx ⊢
  rw [List.get?_append hlt]
  exact hx

theorem heapChain_append (h : Heap) (extra : List (Option HVal × Option HVal)) :
    ∀ v as vs, HeapChain h v as vs → HeapChain ⟨h.cells ++ extra⟩ v as vs := by
  intro v as vs hc
  induction hc with
  | nil => exact .nil
  | cons a car cdr as vs hcell hrest IH =>
    exact .cons a car cdr as vs (cellAt_append h extra a _ hcell) IH

theorem cellAt_setCdr_ne (h : Heap) (t a : Nat) (v : Option HVal) (hne : a ≠ t) :
    (h.setCdr t v).cellAt a = h.cellAt a := by
  rw [Heap.setCdr]
  split
  · rw [Heap.cellAt, Heap.cellAt]
    exact List.get?_set_ne _ _ (fun he => hne he.symm)
  · rfl

theorem cellAt_setCdr_self (h : Heap) (t : Nat) (car cdr v : Option HVal)
    (hc : h.cellAt t = some (car, cdr)) :
    (h.setCdr t v).cellAt t = some (car, v) := by
  rw [Heap.setCdr, hc, Heap.cellAt]
  rw [Heap.cellAt] at hc
  rw [List.get?_set_eq, hc]
  rfl

theorem heapChain_setCdr_ne (h : Heap) (t : Nat) (b : Option HVal) :
    ∀ v as vs, HeapChain h v as vs → t ∉ as → HeapChain (h.setCdr t b) v as vs := by
  intro v as vs hc
  induction hc with
  | nil =>
    intro _
    exact .nil
  | cons a car cdr as vs hcell hrest IH =>
    intro hmem
    refine .cons a car cdr as vs ?_ (IH (fun hx => hmem (List.mem_cons_of_mem _ hx)))
    rw [cellAt_setCdr_ne h t a b (fun he => hmem (he ▸ List.mem_cons_self a as))]
    exact hcell

theorem append_walk_chain :
    ∀ (as : List Nat) (h : Heap) (b : Option HVal) (a : Nat) (vs : List (Option HVal))
      (fuel : Nat),
      HeapChain h (some (.ref a)) (a :: as) vs →
      (a :: as).length ≤ fuel →
      append_walk h b (.ref a) fuel = .ok () (h.setCdr (as.getLastD a) b) := by
  intro as
  induction as with
  | nil =>
    intro h b a vs fuel hc hf
    obtain ⟨m, rfl⟩ : ∃ m, fuel = m + 1 := ⟨fuel - 1, by simp at hf; omega⟩
    cases hc with
    | cons _ car cdr _ vs0 hcell hrest =>
      cases hrest with
      | nil => simp [append_walk, hcell, List.getLastD]
  | cons a1 as1 IH =>
    intro h b a vs fuel hc hf
    obtain ⟨m, rfl⟩ : ∃ m, fuel = m + 1 := ⟨fuel - 1, by simp at hf; omega⟩
    cases hc with
    | cons _ car cdr _ vs0 hcell hrest =>
      cases hrest with
      | cons _ car1 cdr1 _ vs1 hcell1 hrest1 =>
        have hstep : append_walk h b (.ref a) (m + 1) = append_walk h b (.ref a1) m := by
          simp [append_walk, hcell]
        rw [hstep, List.getLastD_cons]
        exact IH h b a1 (car1 :: vs1) m
          (.cons a1 car1 cdr1 as1 vs1 hcell1 hrest1) (by simp at hf ⊢; omega)

theorem heapChain_extend :
    ∀ (as : List Nat) (h : Heap) (a : Nat) (vs : List (Option HVal))
      (tailv : Option HVal) (bs : List Nat) (ws : List (Option HVal)),
      HeapChain h (some (.ref a)) (a :: as) vs →
      (a :: as).Nodup →
      HeapChain (h.setCdr (as.getLastD a) tailv) tailv bs ws →
      HeapChain (h.setCdr (as.getLastD a) tailv) (some (.ref a)) ((a :: as) ++ bs)
        (vs ++ ws) := by
  intro as
  induction as with
  | nil =>
    intro h a vs tailv bs ws hc hnd htail
    cases hc with
    | cons _ car cdr _ vs0 hcell hrest =>
      cases hrest with
      | nil =>
        refine HeapChain.cons a car tailv bs ws ?_ htail
        exact cellAt_setCdr_self h a car none tailv hcell
  | cons a1 as1 IH =>
    intro h a vs tailv bs ws hc hnd htail
    cases hc with
    | cons _ car cdr _ vs0 hcell hrest =>
      have hmem : as1.getLastD a1 ∈ a1 :: as1 := getLastD_mem as1 a1
      have hne : a ≠ as1.getLastD a1 :=
        fun he => (List.nodup_cons.mp hnd).1 (he ▸ hmem)
      cases hrest with
      | cons _ car1 cdr1 _ vs1 hcell1 hrest1 =>
        rw [List.getLastD_cons] at htail ⊢
        refine HeapChain.cons a car (some (.ref a1)) ((a1 :: as1) ++ bs)
          ((car1 :: vs1) ++ ws) ?_ ?_
        · rw [cellAt_setCdr_ne h _ a tailv hne]
          exact hcell
        · exact IH h a1 (car1 :: vs1) tailv bs ws
            (.cons a1 car1 cdr1 as1 vs1 hcell1 hrest1)
            (List.nodup_cons.mp hnd).2 htail


theorem atom_append_loop_refstep (h h2 h3 : Heap) (fuel : Nat)
    (result dup r : Option HVal) (a : Nat) (more : List (Option HVal))
    (hdup : duplicate h (some (.ref a)) = .ok dup h2)
    (happ : append_destructive h2 result dup fuel = .ok r h3) :
    atom_append_loop h fuel result (some (.ref a) :: more)
      = atom_append_loop h3 fuel r more := by
  simp only [atom_append_loop, hdup, happ]

/-! ## Claim theorems -/

/-- C2, counterexample.  `#((1 2))` parses to a one-element vector
holding the list `(1 2)` — a parseable datum with no procedures, ports
or strings.  But `print_rec` prints vector elements with `is_car = 0`,
which drops the parentheses of a pair element: `write` emits `#(1 2)`,
which reads back as a TWO-element vector of numbers, and `equal?`
between the re-parsed datum and the original is false. -/
theorem C2_counterexample :
    tokenize (("#((1 2))").toList)
      = .ok [Token.vectorStart, Token.listStart, Token.number 1, Token.number 2,
             Token.listEnd, Token.listEnd] ∧
    parse_datum 30 [Token.vectorStart, Token.listStart, Token.number 1, Token.number 2,
        Token.listEnd, Token.listEnd]
      = .ok (some (.vector [some (.pair (some (.number 1))
          (some (.pair (some (.number 2)) none)))]), [Token.listEnd]) ∧
    write (.vector [some (.pair (some (.number 1)) (some (.pair (some (.number 2)) none)))])
      = ("#(1 2)\n").toList ∧
    tokenize (("#(1 2)\n").toList)
      = .ok [Token.vectorStart, Token.number 1, Token.number 2, Token.listEnd] ∧
    parse_datum 30 [Token.vectorStart, Token.number 1, Token.number 2, Token.listEnd]
      = .ok (some (.vector [some (.number 1), some (.number 2)]), [Token.listEnd]) ∧
    equal_q (some (.vector [some (.number 1), some (.number 2)]))
        (some (.vector [some (.pair (some (.number 1))
          (some (.pair (some (.number 2)) none)))]))
      = some false := by
  refine ⟨?_, by rfl, ?_, ?_, by rfl, ?_⟩
  · simp +decide [tokenize, tokenize_loop_cons, tokenize_loop_nil, read_token,
      skip_whitespace, skip_comment, read_number, read_number_loop, read_character,
      read_string, read_string_loop, read_identifier, read_ident_loop, is_digit,
      is_delimeter, is_initial, is_letter, is_special_initial, is_peculiar_identifier,
      is_subsequent, is_special_subsequent, cget, c_isprint, Except.map, String.toList]
  · simp +decide [write, print, print_rec, print_vec_elems, print_number, natDigits]
  · simp +decide [tokenize, tokenize_loop_cons, tokenize_loop_nil, read_token,
      skip_whitespace, skip_comment, read_number, read_number_loop, read_character,
      read_string, read_string_loop, read_identifier, read_ident_loop, is_digit,
      is_delimeter, is_initial, is_letter, is_special_initial, is_peculiar_identifier,
      is_subsequent, is_special_subsequent, cget, c_isprint, Except.map, String.toList]
  · simp [equal_q, eq_helper, vector_equal, vec_elems_equal]

/-- C1, counterexample.  The claim says reading the literal `()` yields
the absent (null) reference with no heap variant allocated, and that
`null?` answers true exactly on that absent reference.  In fact parsing
the token stream of `()` returns a freshly consed pair cell with null
car and cdr (a `some`, not the absent `none`), and `null?` applied to
the absent reference signals an arity error instead of returning
true. -/
theorem C1_counterexample :
    parse_datum 9 [Token.listStart, Token.listEnd] = .ok (some (.pair none none), []) ∧
    (some (Cell.pair none none) ≠ (none : Option Cell)) ∧
    atom_null_q none = .error .signalled :=
  ⟨rfl, by simp, rfl⟩

/-- C1, amended.  Reading the literal `()` allocates a fresh pair cell
whose car and cdr are both the absent reference; `null?` returns true
exactly for such a pair value, and an argument that evaluates to the
absent reference itself makes `null?` signal a "too few parameters"
error. -/
theorem C1_amended :
    (∀ rest, parse_datum 9 (Token.listStart :: Token.listEnd :: rest)
        = .ok (some (.pair none none), rest)) ∧
    (∀ v : Option Cell, atom_null_q v = .ok true ↔ v = some (.pair none none)) ∧
    atom_null_q none = .error .signalled := by
  refine ⟨?_, ?_, rfl⟩
  · intro rest
    rfl
  · intro v
    match v with
    | none => simp [atom_null_q]
    | some (.boolean b) => simp [atom_null_q]
    | some (.character c) => simp [atom_null_q]
    | some (.number n) => simp [atom_null_q]
    | some (.string s) => simp [atom_null_q]
    | some (.symbol s) => simp [atom_null_q]
    | some (.vector es) => simp [atom_null_q]
    | some (.pair none none) => simp [atom_null_q]
    | some (.pair none (some c)) => simp [atom_null_q]
    | some (.pair (some c) d) => simp [atom_null_q]

/-- C3, code bug.  The claim (and the code's own R5RS comment) says
`(list obj ...)` terminates and returns a newly allocated list of its
arguments.  The loop in `atom_list` has no exit: once `params` is
exhausted it calls `car(NULL)`, a null dereference — the built list is
never returned.  For every proper argument chain whose evaluations all
succeed, and any fuel beyond the chain length, the run crashes. -/
theorem C3_code_bug :
    ∀ (evalF : Cell → Except AtomSig (Option Cell)) (args : List Cell) (n : Nat),
      (∀ a ∈ args, ∃ v, evalF a = .ok v) →
      args.length < n →
      atom_list_loop evalF (argChain args) n = .crash := by
  intro f args
  induction args with
  | nil =>
    intro n h hn
    match n, hn with
    | n + 1, _ => rfl
  | cons a as ih =>
    intro n h hn
    match n, hn with
    | n + 1, hn =>
      obtain ⟨v, hv⟩ := h a (by simp)
      show atom_list_loop f (some (.pair (some a) (argChain as))) (n + 1) = .crash
      conv_lhs => rw [atom_list_loop.eq_def]
      simp only [hv]
      exact ih n (fun x hx => h x (by simp [hx])) (by simpa using hn)

/-- C3, witness. -/
theorem C3_witness :
    atom_list_loop (fun c => .ok (some c)) (argChain [Cell.number 1]) 2 = .crash :=
  C3_code_bug (fun c => .ok (some c)) [Cell.number 1] 2
    (fun a _ => ⟨some a, rfl⟩) (by decide)

/-- C4, code bug.  The claim (and the code's own comment) says
`string-ref` returns character `k` for `0 <= k < length` and signals a
domain error exactly otherwise.  The bounds check in the source is
inverted (`if (k < 0 || k < (int)strlen(...)) signal_error`): EVERY
valid index signals the domain error, and every index at or past the
length falls through to the buffer read (the terminator at `k = length`,
memory past the buffer beyond it). -/
theorem C4_code_bug :
    (∀ (s : List Char) (k : Int), 0 ≤ k → k < (s.length : Int) →
      atom_string_ref s k = .domainError) ∧
    (∀ (s : List Char) (k : Int), (s.length : Int) < k →
      atom_string_ref s k = .readPastEnd) ∧
    atom_string_ref ['a', 'b', 'c'] 0 = .domainError := by
  refine ⟨?_, ?_, rfl⟩
  · intro s k h0 hlen
    rw [atom_string_ref, if_pos (Or.inr hlen)]
  · intro s k hk
    rw [atom_string_ref, if_neg, if_neg (by omega)]
    push_neg
    constructor <;> omega

/-- C4, witness: the in-range index 1 of "abc" signals the domain
error. -/
theorem C4_witness :
    atom_string_ref ['a', 'b', 'c'] 1 = .domainError :=
  C4_code_bug.1 ['a', 'b', 'c'] 1 (by omega) (by norm_num)

/-- C5, code bug.  The claim says `set!` on a name bound in no frame
signals an "unbound variable" error, reaching the error path with the
continuation intact.  In `environment_set` the walk exits its do/while
with `env == NULL` and then evaluates `signal_error(env->cont, ...)`:
the null environment pointer is dereferenced before any error can be
signalled.  The positive half holds: when some frame binds the name,
the nearest such frame is updated. -/
theorem C5_code_bug :
    (∀ (frames : List Frame) (name : List Char) (v : Cell),
      (∀ f ∈ frames, ∀ p ∈ f, p.1 ≠ name) →
      environment_set frames name v = .nullDeref) ∧
    (∀ (pre post : List Frame) (f f2 : Frame) (name : List Char) (v : Cell),
      (∀ g ∈ pre, ∀ p ∈ g, p.1 ≠ name) →
      frame_update f name v = some f2 →
      environment_set (pre ++ f :: post) name v = .updated (pre ++ f2 :: post)) := by
  have hnone : ∀ (f : Frame) (name : List Char) (v : Cell),
      (∀ p ∈ f, p.1 ≠ name) → frame_update f name v = none := by
    intro f name v h
    induction f with
    | nil => rfl
    | cons p rest ih =>
      rw [frame_update]
      rw [if_neg (h p (by simp))]
      rw [ih (fun q hq => h q (by simp [hq]))]
      rfl
  constructor
  · intro frames name v h
    induction frames with
    | nil => rfl
    | cons f rest ih =>
      rw [environment_set]
      rw [hnone f name v (h f (by simp))]
      rw [ih (fun g hg => h g (by simp [hg]))]
  · intro pre post f f2 name v hpre hf
    induction pre with
    | nil =>
      simp only [List.nil_append]
      rw [environment_set, hf]
    | cons g rest ih =>
      rw [List.cons_append, environment_set]
      rw [hnone g name v (hpre g (by simp))]
      rw [ih (fun g2 hg2 => hpre g2 (by simp [hg2]))]
      rfl

/-- C5, witness: `set!` of the unbound name "zzz" against a one-frame
environment binding only "x" dereferences null instead of signalling. -/
theorem C5_witness :
    environment_set [[(['x'], Cell.number 1)]] ['z', 'z', 'z'] (Cell.number 2)
      = .nullDeref :=
  C5_code_bug.1 [[(['x'], Cell.number 1)]] ['z', 'z', 'z'] (Cell.number 2)
    (by decide)

/-- C6, code bug.  The claim (and the code's own R5RS comment: "If there
are no expressions then #t is returned") says `(and)` returns true.  In
the source, `atom_and` starts with `if (!car(params))`, and for zero
operands `params` is `NULL`, so `car(NULL)` fires its assert / null
dereference: a crash, not `#t`.  With at least one operand the
short-circuit behaviour holds; a single operand returns its value. -/
theorem C6_code_bug :
    (∀ evalF, atom_and evalF none = .error .crash) ∧
    (∀ (evalF : Cell → Except AtomSig (Option Cell)) (e : Cell) (v : Cell),
      evalF e = .ok (some v) →
      atom_and evalF (argChain [e]) = .ok (some v)) := by
  constructor
  · intro f
    rfl
  · intro f e v hv
    show atom_and f (some (.pair (some e) none)) = .ok (some v)
    rw [atom_and]
    rw [atom_and.atom_and_loop]
    rw [hv]
    show (match some v with
      | none => (.error .crash : Except AtomSig (Option Cell))
      | some v =>
        if is_false v then .ok (some v)
        else .ok (some v)) = .ok (some v)
    simp

/-- C6, witness. -/
theorem C6_witness :
    atom_and (fun c => .ok (some c)) (argChain [Cell.boolean true])
      = .ok (some (.boolean true)) :=
  C6_code_bug.2 (fun c => .ok (some c)) (.boolean true) (.boolean true) rfl

/-- C7, code bug.  The claim (with the code's own doc comments for
`length` and `append`) says `(length (append xs ys))` equals
`(+ (length xs) (length ys))`, and that `length` returns the element
count of a proper list.  `atom_length` starts its counter at 1, so a
2-element list measures 3, and the appended 4-element list measures 5 —
never `2 + 2 = 4`.  Evaluated here on xs = (1 2), ys = (3 4) in
`c7_heap`. -/
theorem C7_code_bug :
    c7_final_length
      = .ok 5 ⟨[(some (.num 1), some (.ref 1)), (some (.num 2), some (.ref 5)),
                (some (.num 3), some (.ref 3)), (some (.num 4), none),
                (some (.num 1), some (.ref 1)), (some (.num 3), some (.ref 3))]⟩ ∧
    atom_length c7_heap (some (.ref 0)) 10 = .ok 3 c7_heap ∧
    atom_length c7_heap (some (.ref 2)) 10 = .ok 3 c7_heap ∧
    (5 : Int) ≠ 2 + 2 := by
  refine ⟨by decide, by decide, by decide, by decide⟩

/-- C8, counterexample.  The claim says every boolean-typed cell any
operation produces is one of the two process-wide singletons.  The
reader is a counterexample: the TOKEN_BOOLEAN arm of parse_simple_datum
allocates a fresh heap cell (`make_cell`), distinct from both
singletons, and that cell sits on the allocation list (so the collector
may free it). -/
theorem C8_counterexample :
    (parse_boolean_cell ⟨[], 0⟩).1 = .heapCell 0 ∧
    CellId.heapCell 0 ≠ make_boolean true ∧
    CellId.heapCell 0 ≠ make_boolean false ∧
    (parse_boolean_cell ⟨[], 0⟩).2.cells = [.heapCell 0] := by
  refine ⟨rfl, by decide, by decide, rfl⟩

/-- C8, amended.  Boolean cells produced through `make_boolean` (the
evaluator's and built-ins' path) are always one of the two static
singletons, and the sweep can never free them because they are never on
the allocation list — `make_cell` only ever links fresh heap cells.
The reader's boolean literals, however, are freshly allocated heap
cells, not singletons. -/
theorem C8_amended :
    (∀ b, make_boolean b = .staticTrue ∨ make_boolean b = .staticFalse) ∧
    (∀ s : AllocState, (∀ c ∈ s.cells, ∀ b, c ≠ make_boolean b) →
      ∀ marked b, make_boolean b ∉ sweep_frees marked s) ∧
    (∀ s : AllocState, (∀ c ∈ s.cells, ∀ b, c ≠ make_boolean b) →
      ∀ c ∈ (make_cell s).2.cells, ∀ b, c ≠ make_boolean b) ∧
    (∀ s : AllocState, (parse_boolean_cell s).1 = .heapCell s.counter) := by
  refine ⟨?_, ?_, ?_, ?_⟩
  · intro b
    cases b
    · exact Or.inr rfl
    · exact Or.inl rfl
  · intro s hs marked b hmem
    have : make_boolean b ∈ s.cells := List.mem_of_mem_filter hmem
    exact hs _ this b rfl
  · intro s hs c hc b
    simp only [make_cell] at hc
    rcases List.mem_cons.mp hc with h | h
    · subst h
      cases b <;> simp [make_boolean]
    · exact hs c h b
  · intro s
    rfl

/-- C8, witness: the sweep with nothing marked, on an allocation list
holding one heap cell, does not free the true singleton. -/
theorem C8_witness :
    make_boolean true ∉ sweep_frees (fun _ => false) ⟨[CellId.heapCell 0], 1⟩ :=
  C8_amended.2.1 ⟨[CellId.heapCell 0], 1⟩ (by decide) (fun _ => false) true

/-- C9, counterexample.  The claim says no reachable execution closes
the standard streams.  But `(close-input-port (current-input-port))` is
reachable: `current-input-port` wraps `cont->input`, which
`atom_api_open` sets to stdin, and `atom_close_input_port` calls
`fclose` on the port's handle unconditionally — so stdin gets
closed. -/
theorem C9_counterexample :
    atom_close_input_port (atom_current_input_port cont_input_init) = .standardIn :=
  rfl

/-- C9, amended.  The sweep phase of the collector never closes a
standard stream (its finalizer tests the handle against stdin/stdout
before calling fclose), but the `close-input-port` /
`close-output-port` built-ins close their port's handle unconditionally,
including the externally-owned standard streams. -/
theorem C9_amended :
    (∀ h h2, sweep_port_close .input h = some h2 → h2 ≠ .standardIn ∧ h2 = h) ∧
    (∀ h h2, sweep_port_close .output h = some h2 → h2 ≠ .standardOut ∧ h2 = h) ∧
    (∀ h, atom_close_input_port h = h) ∧
    (∀ h, atom_close_output_port h = h) := by
  refine ⟨?_, ?_, fun _ => rfl, fun _ => rfl⟩
  · intro h h2 hcl
    rw [sweep_port_close] at hcl
    split at hcl
    · simp at hcl
    · rename_i hne
      simp only [Option.some.injEq] at hcl
      subst hcl
      exact ⟨hne, rfl⟩
  · intro h h2 hcl
    rw [sweep_port_close] at hcl
    split at hcl
    · simp at hcl
    · rename_i hne
      simp only [Option.some.injEq] at hcl
      subst hcl
      exact ⟨hne, rfl⟩

/-- C9, witness. -/
theorem C9_witness :
    Handle.fileHandle 3 ≠ .standardIn ∧ Handle.fileHandle 3 = .fileHandle 3 :=
  C9_amended.1 (.fileHandle 3) (.fileHandle 3) rfl

/-- C10, counterexample.  The claim says that for all NON-EMPTY proper
lists xs, ys, `(append xs ys)` overwrites the cdr of the last pair of
the caller's original xs.  For a singleton xs the last pair IS the head
pair, and `duplicate` copies exactly that cell — so `append_destructive`
mutates the COPY and the original xs is left untouched.  Here xs = (1)
at address 0, ys = (2) at address 1: after the append the result is the
fresh cell 2, cell 0 still reads (num 1, NULL), and the original xs
still denotes (1). -/
theorem C10_counterexample :
    atom_append ⟨[(some (.num 1), none), (some (.num 2), none)]⟩
        [some (.ref 0), some (.ref 1)] 10
      = .ok (some (.ref 2))
          ⟨[(some (.num 1), none), (some (.num 2), none),
            (some (.num 1), some (.ref 3)), (some (.num 2), none)]⟩ ∧
    Heap.cellAt ⟨[(some (.num 1), none), (some (.num 2), none),
            (some (.num 1), some (.ref 3)), (some (.num 2), none)]⟩ 0
      = some (some (.num 1), none) := by
  refine ⟨by decide, by decide⟩

/-- C2, amended.  For every datum in the `Good` class — booleans,
integral numbers in `[0, 10^6)`, characters per `good_char`, lexable
symbols, non-empty proper lists whose non-final elements parse cleanly,
and vectors of non-pair elements (non-final ones clean) — the text
produced by `write` tokenizes exactly to the token list of the datum,
parsing those tokens returns the datum itself (leaving only the
`dirt d` unconsumed `)` tokens that `parse_vector` never skips), and
`equal?` between the re-parsed datum and the original is true.
Strings, dotted pairs, the empty list, pairs inside vectors, `#\s`/`#\n`
characters and numbers outside `[0, 10^6)` are excluded — each exclusion
forced by a behaviour of the code (mutable strings are excluded by the
claim itself; `equal?` crashes on dotted pairs and on `()`; `print_rec`
drops parentheses of pairs inside vectors and `%lg` switches to exponent
notation at `10^6`; a written `#\s` or `#\n` eats the following
delimiter). -/
theorem C2_amended (d : Cell) (h : Good d) :
    tokenize (write d) = .ok (tokensOfD d) ∧
    parse_datum (parseFuel d) (tokensOfD d)
      = .ok (some d, List.replicate (dirt d) Token.listEnd) ∧
    equal_q (some d) (some d) = some true := by
  refine ⟨?_, ?_, ?_⟩
  · rw [write, print, tokenize]
    rw [(lex_good d h).1 ['\n'] rfl]
    rw [tokenize_loop_ws '\n' (Or.inr rfl) [], tokenize_loop_nil]
    simp [Except.map]
  · have hh := (parse_good d h).1 (parseFuel d) le_rfl []
    simpa using hh
  · rw [equal_q]
    exact eq_helper_refl d h

/-- C2, witness: the round trip on the concrete good datum `(1 2)`. -/
theorem C2_witness :
    tokenize (write (Cell.pair (some (.number 1)) (some (.pair (some (.number 2)) none))))
      = .ok (tokensOfD (Cell.pair (some (.number 1))
          (some (.pair (some (.number 2)) none)))) ∧
    parse_datum
        (parseFuel (Cell.pair (some (.number 1)) (some (.pair (some (.number 2)) none))))
        (tokensOfD (Cell.pair (some (.number 1)) (some (.pair (some (.number 2)) none))))
      = .ok (some (Cell.pair (some (.number 1)) (some (.pair (some (.number 2)) none))),
          List.replicate
            (dirt (Cell.pair (some (.number 1)) (some (.pair (some (.number 2)) none))))
            Token.listEnd) ∧
    equal_q (some (Cell.pair (some (.number 1)) (some (.pair (some (.number 2)) none))))
        (some (Cell.pair (some (.number 1)) (some (.pair (some (.number 2)) none))))
      = some true :=
  C2_amended _
    (Good.consCar _ _ _ (Good.num 1 (by decide) (by decide)) (dirt_number 1)
      (Good.lastCar _ (Good.num 2 (by decide) (by decide))))

/-- C10, amended.  For a proper list xs of length at least TWO (addresses
`x0 :: xs` with `xs` non-empty) and a non-empty proper list ys, all cells
distinct, and fuel at least the length of xs, `(append xs ys)`:
returns a reference to a fresh duplicate of xs's HEAD cell (address
`h.cells.length`), allocates exactly two new cells (the duplicated heads
of xs and of ys), and overwrites the cdr of the last pair of the
caller's ORIGINAL xs to point at the duplicated head of ys — so that
afterwards the original xs denotes the concatenation of the elements of
xs and ys.  (For a singleton xs the claim fails: the duplicated head IS
the last cell, so the copy is mutated and the original survives — see
the counterexample.) -/
theorem C10_amended
    (h : Heap) (x0 y0 : Nat) (xs ys : List Nat)
    (xvals yvals : List (Option HVal)) (fuel : Nat)
    (hx : HeapChain h (some (.ref x0)) (x0 :: xs) xvals)
    (hy : HeapChain h (some (.ref y0)) (y0 :: ys) yvals)
    (hxs2 : xs ≠ [])
    (hnd : ((x0 :: xs) ++ (y0 :: ys)).Nodup)
    (hfuel : (x0 :: xs).length ≤ fuel) :
    ∃ h4 : Heap,
      atom_append h [some (.ref x0), some (.ref y0)] fuel
        = .ok (some (.ref h.cells.length)) h4 ∧
      h4.cells.length = h.cells.length + 2 ∧
      HeapChain h4 (some (.ref x0)) ((x0 :: xs) ++ (h.cells.length + 1) :: ys)
        (xvals ++ yvals) := by
  cases hx with
  | cons _ carx cdrx _ xvals1 hcellx hxrest =>
  cases hy with
  | cons _ cary cdry _ yvals1 hcelly hyrest =>
  have hy0lt : y0 < h.cells.length := by
    by_contra hlt
    push_neg at hlt
    rw [Heap.cellAt, List.get?_eq_none.mpr hlt] at hcelly
    exact Option.noConfusion hcelly
  have hxchain : HeapChain h (some (.ref x0)) (x0 :: xs) (carx :: xvals1) :=
    .cons x0 carx cdrx xs xvals1 hcellx hxrest
  have haddr := heapChain_addr_lt h _ _ _ hxchain
  have htlast_mem : xs.getLastD x0 ∈ x0 :: xs := getLastD_mem xs x0
  have htlast_lt : xs.getLastD x0 < h.cells.length := haddr _ htlast_mem
  have hndsplit := List.nodup_append.mp hnd
  -- the two fresh cells
  have hjoin : (h.cells ++ [(carx, cdrx)]) ++ [(cary, cdry)]
      = h.cells ++ [(carx, cdrx), (cary, cdry)] := by
    simp
  have hdup1 : duplicate h (some (.ref x0))
      = .ok (some (.ref h.cells.length)) ⟨h.cells ++ [(carx, cdrx)]⟩ := by
    simp [duplicate, hcellx, Heap.consCell]
  have hdup2 : duplicate ⟨h.cells ++ [(carx, cdrx)]⟩ (some (.ref y0))
      = .ok (some (.ref (h.cells.length + 1)))
          ⟨h.cells ++ [(carx, cdrx), (cary, cdry)]⟩ := by
    have hcy := cellAt_append h [(carx, cdrx)] y0 _ hcelly
    simp [duplicate, hcy, Heap.consCell, hjoin]
  -- the x chain seen from the duplicated head in the extended heap
  have hcellL : Heap.cellAt ⟨h.cells ++ [(carx, cdrx), (cary, cdry)]⟩ h.cells.length
      = some (carx, cdrx) := by
    rw [Heap.cellAt, ← hjoin]
    rw [List.get?_append (by simp)]
    exact List.get?_concat_length h.cells (carx, cdrx)
  have hwchain : HeapChain ⟨h.cells ++ [(carx, cdrx), (cary, cdry)]⟩
      (some (.ref h.cells.length)) (h.cells.length :: xs) (carx :: xvals1) :=
    .cons _ carx cdrx xs xvals1 hcellL
      (heapChain_append h [(carx, cdrx), (cary, cdry)] _ _ _ hxrest)
  have hwalk := append_walk_chain xs ⟨h.cells ++ [(carx, cdrx), (cary, cdry)]⟩
      (some (.ref (h.cells.length + 1))) h.cells.length (carx :: xvals1) fuel hwchain
      (by simpa using hfuel)
  rw [getLastD_irrel xs hxs2 h.cells.length x0] at hwalk
  have happ2 : append_destructive ⟨h.cells ++ [(carx, cdrx), (cary, cdry)]⟩
      (some (.ref h.cells.length)) (some (.ref (h.cells.length + 1))) fuel
      = .ok (some (.ref h.cells.length))
          (Heap.setCdr ⟨h.cells ++ [(carx, cdrx), (cary, cdry)]⟩ (xs.getLastD x0)
            (some (.ref (h.cells.length + 1)))) := by
    simp [append_destructive, hwalk]
  refine ⟨Heap.setCdr ⟨h.cells ++ [(carx, cdrx), (cary, cdry)]⟩ (xs.getLastD x0)
    (some (.ref (h.cells.length + 1))), ?_, ?_, ?_⟩
  · rw [atom_append]
    rw [atom_append_loop_refstep h ⟨h.cells ++ [(carx, cdrx)]⟩ ⟨h.cells ++ [(carx, cdrx)]⟩
      fuel none (some (.ref h.cells.length)) (some (.ref h.cells.length)) x0 _ hdup1 rfl]
    rw [atom_append_loop_refstep ⟨h.cells ++ [(carx, cdrx)]⟩
      ⟨h.cells ++ [(carx, cdrx), (cary, cdry)]⟩ _ fuel (some (.ref h.cells.length))
      (some (.ref (h.cells.length + 1))) (some (.ref h.cells.length)) y0 [] hdup2 happ2]
    rfl
  · rw [setCdr_length]
    simp
  · -- the original xs now denotes the concatenation
    have hx3 : HeapChain ⟨h.cells ++ [(carx, cdrx), (cary, cdry)]⟩
        (some (.ref x0)) (x0 :: xs) (carx :: xvals1) :=
      heapChain_append h [(carx, cdrx), (cary, cdry)] _ _ _ hxchain
    have hcellY : Heap.cellAt
        (Heap.setCdr ⟨h.cells ++ [(carx, cdrx), (cary, cdry)]⟩ (xs.getLastD x0)
          (some (.ref (h.cells.length + 1)))) (h.cells.length + 1)
        = some (cary, cdry) := by
      rw [cellAt_setCdr_ne _ _ _ _ (by omega)]
      rw [Heap.cellAt, ← hjoin]
      rw [show h.cells.length + 1 = (h.cells ++ [(carx, cdrx)]).length from by simp]
      exact List.get?_concat_length _ _
    have hytail : HeapChain
        (Heap.setCdr ⟨h.cells ++ [(carx, cdrx), (cary, cdry)]⟩ (xs.getLastD x0)
          (some (.ref (h.cells.length + 1)))) cdry ys yvals1 := by
      refine heapChain_setCdr_ne _ _ _ _ _ _
        (heapChain_append h [(carx, cdrx), (cary, cdry)] _ _ _ hyrest) ?_
      intro hmem
      exact hndsplit.2.2 htlast_mem (List.mem_cons_of_mem _ hmem)
    have hychain : HeapChain
        (Heap.setCdr ⟨h.cells ++ [(carx, cdrx), (cary, cdry)]⟩ (xs.getLastD x0)
          (some (.ref (h.cells.length + 1))))
        (some (.ref (h.cells.length + 1))) ((h.cells.length + 1) :: ys)
        (cary :: yvals1) :=
      .cons _ cary cdry ys yvals1 hcellY hytail
    exact heapChain_extend xs ⟨h.cells ++ [(carx, cdrx), (cary, cdry)]⟩ x0
      (carx :: xvals1) (some (.ref (h.cells.length + 1)))
      ((h.cells.length + 1) :: ys) (cary :: yvals1) hx3 hndsplit.1 hychain

/-- C10, witness: xs = (1 2) at addresses 0,1 and ys = (3) at address 2;
after the append the original xs denotes (1 2 3) through the duplicated
head of ys at address 4, and exactly the two duplicate cells 3,4 were
allocated. -/
theorem C10_witness :
    ∃ h4 : Heap,
      atom_append ⟨[(some (.num 1), some (.ref 1)), (some (.num 2), none),
          (some (.num 3), none)]⟩ [some (.ref 0), some (.ref 2)] 2
        = .ok (some (.ref 3)) h4 ∧
      h4.cells.length = 5 ∧
      HeapChain h4 (some (.ref 0)) ([0, 1] ++ 4 :: [])
        ([some (.num 1), some (.num 2)] ++ [some (.num 3)]) :=
  C10_amended ⟨[(some (.num 1), some (.ref 1)), (some (.num 2), none),
      (some (.num 3), none)]⟩ 0 2 [1] [] [some (.num 1), some (.num 2)]
    [some (.num 3)] 2
    (.cons 0 (some (.num 1)) (some (.ref 1)) [1] [some (.num 2)] rfl
      (.cons 1 (some (.num 2)) none [] [] rfl .nil))
    (.cons 2 (some (.num 3)) none [] [] rfl .nil)
    (by decide) (by decide) (by decide)

end Atom
